import Mathlib

/-!
# Luna VCS: workspace lifecycle, metadata store and squash-and-rebase

A shallow embedding of `internal/luna/metadata.go`, `internal/luna/workspace.go`
and of `gitRepository.SquashAndRebase`, `CreateBranch`, `SwitchBranch` and
`IsRepository` from `internal/git/service.go`.

Conventions of the embedding.

* A Go function `f(args) error` that reads and writes the metadata file becomes
  `f args : Store → Except Err Unit × Store`: the result and the state after
  the call.  The state is returned on the error path as well, because the Go
  code does not undo what it has already done.
* Go maps are association lists read through `Assoc.get?`; the order of the
  entries carries no meaning.
* A Go string is any sequence of bytes (`GoString`); `encoding/json` stores
  and reads it with every byte that is not valid UTF-8 replaced by U+FFFD.
* `time.Now()` and the failures of the operating system are inputs (`Sys`).
* A failing engine primitive leaves the state it was supposed to change as it
  was; the one compound primitive, the checkout of a branch, may also fail
  after it has moved `HEAD`. A failing `os.WriteFile` may have emptied the
  file.
-/

namespace Luna

/-! ## Go strings -/

/-- One step of reading a Go string as UTF-8: a code point that is validly
encoded, or a byte that is not part of a valid encoding. -/
inductive GoChar where
  | rune (c : Char)
  | byte (b : Nat)
  deriving DecidableEq, Repr

/-- A Go `string`, an arbitrary sequence of bytes, given by what reading it
as UTF-8 yields. -/
structure GoString where
  chars : List GoChar
  deriving DecidableEq, Repr

/-- The Go string with the UTF-8 encoding of `s` as bytes. -/
@[coe]
def GoString.ofString (s : String) : GoString :=
  { chars := s.data.map GoChar.rune }

instance : Coe String GoString := ⟨GoString.ofString⟩

/-- The Go string `"a\xffb"`, whose middle byte is not valid UTF-8. -/
def sampleInvalid : GoString :=
  { chars := [.rune 'a', .byte 255, .rune 'b'] }

/-- What `encoding/json` makes of one step of a string, when it writes the
string and when it reads it: a byte that is not valid UTF-8 becomes the code
point U+FFFD. -/
def GoChar.coerce : GoChar → GoChar
  | .rune c => .rune c
  | .byte _ => .rune (Char.ofNat 0xFFFD)

/-- The string that `encoding/json` stores for `s`: `s` with every byte that
is not valid UTF-8 replaced by U+FFFD. A string of valid UTF-8 is stored as it
is. -/
def GoString.coerce (s : GoString) : GoString :=
  { chars := s.chars.map GoChar.coerce }

/-- The bytes of the UTF-8 encoding of code point `n`. -/
def utf8 (n : Nat) : List Nat :=
  if n < 128 then [n]
  else if n < 2048 then [192 + n / 64, 128 + n % 64]
  else if n < 65536 then [224 + n / 4096, 128 + n / 64 % 64, 128 + n % 64]
  else [240 + n / 262144, 128 + n / 4096 % 64, 128 + n / 64 % 64, 128 + n % 64]

/-- The bytes of one step of a string. -/
def GoChar.bytes : GoChar → List Nat
  | .rune c => utf8 c.toNat
  | .byte b => [b]

/-- The bytes of a Go string. -/
def GoString.bytes (s : GoString) : List Nat :=
  s.chars.foldr (fun c acc => c.bytes ++ acc) []

/-- Whether `a` comes before `b` in byte order, `strings.Compare(a, b) < 0`. -/
def bytesLt : List Nat → List Nat → Bool
  | [], [] => false
  | [], _ :: _ => true
  | _ :: _, [] => false
  | x :: a, y :: b => if x < y then true else if y < x then false else bytesLt a b

/-! ## Go maps -/

namespace Assoc

/-- The value bound to `k`, as `v, ok := m[k]`. -/
def get? {κ α : Type} [DecidableEq κ] : List (κ × α) → κ → Option α
  | [], _ => none
  | (k', v) :: rest, k => if k' = k then some v else get? rest k

/-- The map without a binding for `k`, as `delete(m, k)`. -/
def remove {κ α : Type} [DecidableEq κ] (m : List (κ × α)) (k : κ) : List (κ × α) :=
  m.filter (fun p => decide (p.1 ≠ k))

/-- The map with `k` bound to `v`, as `m[k] = v`. -/
def put {κ α : Type} [DecidableEq κ] (m : List (κ × α)) (k : κ) (v : α) : List (κ × α) :=
  (k, v) :: remove m k

/-- Whether `k` is a key, the `ok` of `_, ok := m[k]`. -/
def contains {κ α : Type} [DecidableEq κ] (m : List (κ × α)) (k : κ) : Bool :=
  (get? m k).isSome

end Assoc

/-! ## Data model (`metadata.go`) -/

/-- Go `Step`; `CreatedAt` is a clock reading. -/
structure Step where
  Description : GoString
  CommitHash : GoString
  CreatedAt : Nat
  deriving DecidableEq, Repr

/-- Go `WorkspaceMetadata`. A nil and an empty `Steps` slice are both `[]`. -/
structure WorkspaceMetadata where
  Name : GoString
  Description : GoString
  CreatedAt : Nat
  Steps : List Step
  deriving DecidableEq, Repr

/-- The step that `encoding/json` stores for `st`. -/
def Step.coerce (st : Step) : Step :=
  { Description := st.Description.coerce, CommitHash := st.CommitHash.coerce,
    CreatedAt := st.CreatedAt }

/-- The workspace record that `encoding/json` stores for `ws`. -/
def WorkspaceMetadata.coerce (ws : WorkspaceMetadata) : WorkspaceMetadata :=
  { Name := ws.Name.coerce, Description := ws.Description.coerce, CreatedAt := ws.CreatedAt,
    Steps := ws.Steps.map Step.coerce }

/-- The zero value of `WorkspaceMetadata`, what `m[k]` yields for a missing key. -/
def WorkspaceMetadata.zero : WorkspaceMetadata :=
  { Name := "", Description := "", CreatedAt := 0, Steps := [] }

/-- Go `LunaMetadata` as `LoadMetadata` returns it: the map is never nil. -/
structure LunaMetadata where
  Workspaces : List (GoString × WorkspaceMetadata)
  CurrentWorkspace : GoString
  deriving DecidableEq, Repr

/-- Errors, one constructor per `fmt.Errorf` message of the source; `wrap` is
the `"...: %w"` wrapping with the text before the colon. -/
inductive Err where
  | fault (what : String)
  | workspaceExists (name : GoString)
  | noActiveWorkspace
  | noActiveWorkspaceHint
  | currentWorkspaceNotFound (name : GoString)
  | workspaceNotFound (name : GoString)
  | notALunaRepository
  | alreadyOnBase (baseBranch : GoString)
  | headNotBranch
  | userNameNotSet
  | userEmailNotSet
  | wrap (context : String) (cause : Err)
  deriving DecidableEq, Repr

/-- What is found at `<repo>/.git/metadata.json`: no file; a file that cannot
be read; a file whose content is not a JSON document of the expected shape; or
a JSON document. In `json` the first field lists the members of the
`workspaces` object, with the later of two members under one key first, and is
`none` when `workspaces` is `null` or missing; the second field is the
`current_workspace` member. -/
inductive MetadataFile where
  | absent
  | unreadable
  | malformed
  | json (workspaces : Option (List (GoString × WorkspaceMetadata))) (current : GoString)
  deriving DecidableEq, Repr

/-- The metadata file together with a count of the `SaveMetadata` calls made
so far (the count is bookkeeping of the embedding, not program state). -/
structure Store where
  file : MetadataFile
  saves : Nat
  deriving DecidableEq, Repr

/-- How `os.WriteFile` ends: the document is written; the file cannot be
opened for writing and stays as it is; or the file is opened, which empties
it, and the write then fails, leaving at most a part of the document. -/
inductive WriteOutcome where
  | written
  | openFails
  | cutShort
  deriving DecidableEq, Repr

/-- Inputs from outside the program for one call: the clock, whether
`os.MkdirAll` fails, and how `os.WriteFile` ends. -/
structure Sys where
  now : Nat
  mkdirFails : Bool
  write : WriteOutcome
  deriving DecidableEq, Repr

/-! ## Metadata store (`metadata.go`) -/

/-- The members that `json.Unmarshal` reads: every string is coerced. -/
def readMembers (workspaces : List (GoString × WorkspaceMetadata)) :
    List (GoString × WorkspaceMetadata) :=
  workspaces.map (fun p => (p.1.coerce, p.2.coerce))

/-- The members of the `workspaces` object after `json.MarshalIndent` has
written the map and `json.Unmarshal` has read it back. The encoder sorts the
entries by key in byte order and writes each key coerced; of two entries whose
keys are written alike the reader keeps the one written last, the one with the
greater key. -/
def writtenMembers (workspaces : List (GoString × WorkspaceMetadata)) :
    List (GoString × WorkspaceMetadata) :=
  readMembers
    (workspaces.filter (fun p =>
      !(workspaces.any (fun q =>
          decide (q.1.coerce = p.1.coerce) && bytesLt p.1.bytes q.1.bytes))))

/-- Go function `MetadataService.LoadMetadata`. -/
def LoadMetadata : MetadataFile → Except Err LunaMetadata
  | .absent => .ok { Workspaces := [], CurrentWorkspace := "" }
  | .unreadable => .error (.wrap "failed to read metadata file" (.fault "read"))
  | .malformed => .error (.wrap "failed to parse metadata file" (.fault "json"))
  | .json none current => .ok { Workspaces := [], CurrentWorkspace := current.coerce }
  | .json (some workspaces) current =>
      .ok { Workspaces := readMembers workspaces, CurrentWorkspace := current.coerce }

/-- The metadata file after `os.WriteFile` has written the document for
`metadata`. A file that exists keeps its permissions, so one that could not
be read still cannot. -/
def MetadataFile.overwrite (file : MetadataFile) (metadata : LunaMetadata) : MetadataFile :=
  match file with
  | .unreadable => .unreadable
  | _ => .json (some (writtenMembers metadata.Workspaces)) metadata.CurrentWorkspace.coerce

/-- The metadata file after `os.WriteFile` has opened it and failed to write
the document: its content is empty or a part of a document, which does not
parse. -/
def MetadataFile.cut (file : MetadataFile) : MetadataFile :=
  match file with
  | .unreadable => .unreadable
  | _ => .malformed

/-- Go function `MetadataService.SaveMetadata`. -/
def SaveMetadata (sys : Sys) (metadata : LunaMetadata) (s : Store) : Except Err Unit × Store :=
  let s1 : Store := { s with saves := s.saves + 1 }
  if sys.mkdirFails then
    (.error (.wrap "failed to create .git directory" (.fault "mkdir")), s1)
  else
    match sys.write with
    | .openFails => (.error (.wrap "failed to write metadata file" (.fault "open")), s1)
    | .cutShort =>
      (.error (.wrap "failed to write metadata file" (.fault "write")),
        { s1 with file := s.file.cut })
    | .written => (.ok (), { s1 with file := s.file.overwrite metadata })

namespace MetadataService

/-- Go function `MetadataService.CreateWorkspace`. -/
def CreateWorkspace (sys : Sys) (name description : GoString) (s : Store) :
    Except Err Unit × Store :=
  match LoadMetadata s.file with
  | .error e => (.error (.wrap "failed to load metadata" e), s)
  | .ok metadata =>
    if Assoc.contains metadata.Workspaces name then
      (.error (.workspaceExists name), s)
    else
      let workspace : WorkspaceMetadata :=
        { Name := name, Description := description, CreatedAt := sys.now, Steps := [] }
      SaveMetadata sys
        { Workspaces := Assoc.put metadata.Workspaces name workspace,
          CurrentWorkspace := name } s

/-- Go function `MetadataService.AddStep`. -/
def AddStep (sys : Sys) (description commitHash : GoString) (s : Store) :
    Except Err Unit × Store :=
  match LoadMetadata s.file with
  | .error e => (.error (.wrap "failed to load metadata" e), s)
  | .ok metadata =>
    if metadata.CurrentWorkspace = "" then
      (.error .noActiveWorkspace, s)
    else
      match Assoc.get? metadata.Workspaces metadata.CurrentWorkspace with
      | none => (.error (.currentWorkspaceNotFound metadata.CurrentWorkspace), s)
      | some workspace =>
        let step : Step :=
          { Description := description, CommitHash := commitHash, CreatedAt := sys.now }
        let workspace1 : WorkspaceMetadata :=
          { workspace with Steps := workspace.Steps ++ [step] }
        SaveMetadata sys
          { metadata with
            Workspaces := Assoc.put metadata.Workspaces metadata.CurrentWorkspace workspace1 } s

/-- Go function `MetadataService.GetCurrentWorkspace`. -/
def GetCurrentWorkspace (s : Store) : Except Err GoString :=
  match LoadMetadata s.file with
  | .error e => .error (.wrap "failed to load metadata" e)
  | .ok metadata => .ok metadata.CurrentWorkspace

end MetadataService

/-! ## Workspace lifecycle (`workspace.go`) -/

/-- One invocation of a method of the `git.Repository` interface. -/
inductive Call where
  | isRepository
  | createBranch (branchName baseBranch : GoString)
  | switchBranch (branchName : GoString)
  | stageAll
  | commit (message : GoString)
  | hasStagedChanges
  | squashAndRebase (baseBranch commitMessage : GoString)
  deriving DecidableEq, Repr

/-- The `git.Repository` interface over a repository state `σ`; every method
returns its Go result and the state it leaves behind. -/
structure Repository (σ : Type) where
  IsRepository : σ → Except Err Bool × σ
  CreateBranch : GoString → GoString → σ → Except Err Unit × σ
  SwitchBranch : GoString → σ → Except Err Unit × σ
  StageAll : σ → Except Err Unit × σ
  Commit : GoString → σ → Except Err GoString × σ
  HasStagedChanges : σ → Except Err Bool × σ
  SquashAndRebase : GoString → GoString → σ → Except Err Unit × σ

/-- What a `WorkspaceService` acts on: the repository behind the adapter, the
metadata store, and the adapter methods invoked so far, oldest first (the
list is bookkeeping of the embedding). -/
structure World (σ : Type) where
  repo : σ
  store : Store
  calls : List Call

/-- The state after invoking adapter method `c`, which left the repository as `r`. -/
def World.invoked {σ : Type} (w : World σ) (c : Call) (r : σ) : World σ :=
  { w with repo := r, calls := w.calls ++ [c] }

/-- The messages of the `Commit` invocations in a list of calls, in order. -/
def commitMessages : List Call → List GoString
  | [] => []
  | .commit message :: rest => message :: commitMessages rest
  | _ :: rest => commitMessages rest

/-- The arguments of the `SquashAndRebase` invocations in a list of calls. -/
def squashCalls : List Call → List (GoString × GoString)
  | [] => []
  | .squashAndRebase baseBranch message :: rest => (baseBranch, message) :: squashCalls rest
  | _ :: rest => squashCalls rest

/-- The description of the last element of `steps`, or `fallback` when there
is none: `if len(steps) > 0 { steps[len(steps)-1].Description } else { fallback }`. -/
def lastDescription (steps : List Step) (fallback : GoString) : GoString :=
  if h : steps.length > 0 then
    (steps.get ⟨steps.length - 1, Nat.sub_lt h Nat.one_pos⟩).Description
  else
    fallback

namespace WorkspaceService

/-- Go function `WorkspaceService.CreateWorkspace`. -/
def CreateWorkspace {σ : Type} (git : Repository σ) (sys : Sys) (name description : GoString)
    (w : World σ) : Except Err Unit × World σ :=
  match git.IsRepository w.repo with
  | (.error e, r1) => (.error (.wrap "failed to check repository" e), w.invoked .isRepository r1)
  | (.ok isRepo, r1) =>
    let w1 := w.invoked .isRepository r1
    if !isRepo then (.error .notALunaRepository, w1)
    else
      match git.CreateBranch name "luna" w1.repo with
      | (.error e, r2) =>
        (.error (.wrap "failed to create workspace branch" e),
          w1.invoked (.createBranch name "luna") r2)
      | (.ok _, r2) =>
        let w2 := w1.invoked (.createBranch name "luna") r2
        match git.SwitchBranch name w2.repo with
        | (.error e, r3) =>
          (.error (.wrap "failed to switch to workspace" e), w2.invoked (.switchBranch name) r3)
        | (.ok _, r3) =>
          let w3 := w2.invoked (.switchBranch name) r3
          match MetadataService.CreateWorkspace sys name description w3.store with
          | (.error e, s) =>
            (.error (.wrap "failed to create workspace metadata" e), { w3 with store := s })
          | (.ok _, s) => (.ok (), { w3 with store := s })

/-- Go function `WorkspaceService.CreateStep`. -/
def CreateStep {σ : Type} (git : Repository σ) (sys : Sys) (description : GoString)
    (w : World σ) : Except Err Unit × World σ :=
  match LoadMetadata w.store.file with
  | .error e => (.error (.wrap "failed to load metadata" e), w)
  | .ok metadata =>
    let currentWorkspace := metadata.CurrentWorkspace
    if currentWorkspace = "" then (.error .noActiveWorkspaceHint, w)
    else
      match git.StageAll w.repo with
      | (.error e, r1) => (.error (.wrap "failed to stage changes" e), w.invoked .stageAll r1)
      | (.ok _, r1) =>
        let w1 := w.invoked .stageAll r1
        let workspace :=
          (Assoc.get? metadata.Workspaces currentWorkspace).getD WorkspaceMetadata.zero
        let lastStepDescription := lastDescription workspace.Steps workspace.Description
        match git.Commit lastStepDescription w1.repo with
        | (.error e, r2) =>
          (.error (.wrap "failed to commit changes" e), w1.invoked (.commit lastStepDescription) r2)
        | (.ok commitHash, r2) =>
          let w2 := w1.invoked (.commit lastStepDescription) r2
          match MetadataService.AddStep sys description commitHash w2.store with
          | (.error e, s) =>
            (.error (.wrap "failed to add step metadata" e), { w2 with store := s })
          | (.ok _, s) => (.ok (), { w2 with store := s })

/-- Lines 119-141 of `FinishWorkspace`: when `hasChanges`, commit the pending
changes and append the final step to the in-memory copy. Returns the
workspace and metadata values as they stand after the block. -/
def commitPending {σ : Type} (git : Repository σ) (sys : Sys) (hasChanges : Bool)
    (currentWorkspace : GoString) (workspace : WorkspaceMetadata) (metadata : LunaMetadata)
    (w : World σ) : Except Err (WorkspaceMetadata × LunaMetadata) × World σ :=
  if hasChanges then
    let finalStepDescription := lastDescription workspace.Steps "Final changes"
    match git.Commit finalStepDescription w.repo with
    | (.error e, r) =>
      (.error (.wrap "failed to commit pending changes" e),
        w.invoked (.commit finalStepDescription) r)
    | (.ok commitHash, r) =>
      let finalStep : Step :=
        { Description := "Final workspace changes", CommitHash := commitHash,
          CreatedAt := sys.now }
      let workspace1 : WorkspaceMetadata :=
        { workspace with Steps := workspace.Steps ++ [finalStep] }
      (.ok (workspace1,
          { metadata with
            Workspaces := Assoc.put metadata.Workspaces currentWorkspace workspace1 }),
        w.invoked (.commit finalStepDescription) r)
  else
    (.ok (workspace, metadata), w)

/-- Go function `WorkspaceService.FinishWorkspace`. -/
def FinishWorkspace {σ : Type} (git : Repository σ) (sys : Sys) (w : World σ) :
    Except Err Unit × World σ :=
  match MetadataService.GetCurrentWorkspace w.store with
  | .error e => (.error (.wrap "failed to get current workspace" e), w)
  | .ok currentWorkspace =>
    if currentWorkspace = "" then (.error .noActiveWorkspace, w)
    else
      match LoadMetadata w.store.file with
      | .error e => (.error (.wrap "failed to load metadata" e), w)
      | .ok metadata =>
        match Assoc.get? metadata.Workspaces currentWorkspace with
        | none => (.error (.workspaceNotFound currentWorkspace), w)
        | some workspace =>
          match git.StageAll w.repo with
          | (.error e, r1) =>
            (.error (.wrap "failed to stage pending changes" e), w.invoked .stageAll r1)
          | (.ok _, r1) =>
            let w1 := w.invoked .stageAll r1
            match git.HasStagedChanges w1.repo with
            | (.error e, r2) =>
              (.error (.wrap "failed to check for staged changes" e),
                w1.invoked .hasStagedChanges r2)
            | (.ok hasChanges, r2) =>
              let w2 := w1.invoked .hasStagedChanges r2
              match commitPending git sys hasChanges currentWorkspace workspace metadata w2 with
              | (.error e, w3) => (.error e, w3)
              | (.ok (workspace1, metadata1), w3) =>
                match git.SquashAndRebase "luna" workspace1.Description w3.repo with
                | (.error e, r4) =>
                  (.error (.wrap "failed to squash and rebase workspace" e),
                    w3.invoked (.squashAndRebase "luna" workspace1.Description) r4)
                | (.ok _, r4) =>
                  let w4 := w3.invoked (.squashAndRebase "luna" workspace1.Description) r4
                  let metadata2 : LunaMetadata :=
                    { Workspaces := Assoc.remove metadata1.Workspaces currentWorkspace,
                      CurrentWorkspace := "" }
                  match SaveMetadata sys metadata2 w4.store with
                  | (.error e, s) =>
                    (.error (.wrap "failed to update metadata" e), { w4 with store := s })
                  | (.ok _, s) => (.ok (), { w4 with store := s })

end WorkspaceService

/-- A run of `CreateStep` calls, each with its own outside inputs and
description; `none` as soon as one of them returns an error. -/
def createSteps {σ : Type} (git : Repository σ) : List (Sys × GoString) → World σ → Option (World σ)
  | [], w => some w
  | (sys, description) :: rest, w =>
    match WorkspaceService.CreateStep git sys description w with
    | (.ok _, w1) => createSteps git rest w1
    | (.error _, _) => none

/-! ## The git adapter: `SquashAndRebase` (`internal/git/service.go`) -/

namespace Git

/-- An object hash. -/
abbrev Hash := String

/-- The library type `object.Signature`. -/
structure Signature where
  Name : String
  Email : String
  When : Nat
  deriving DecidableEq, Repr

/-- The fields of the library type `object.Commit` that the adapter sets. -/
structure Commit where
  Author : Signature
  Committer : Signature
  Message : GoString
  TreeHash : Hash
  ParentHashes : List Hash
  deriving DecidableEq, Repr

/-- Where `HEAD` points: at a branch by name, or at a commit. -/
inductive Head where
  | branch (name : GoString)
  | detached (hash : Hash)
  deriving DecidableEq, Repr

/-- A change made to the repository by an engine primitive. -/
inductive Effect where
  | storeObject (hash : Hash)
  | setReference (branch : GoString) (hash : Hash)
  | checkout (branch : GoString)
  | removeReference (branch : GoString)
  deriving DecidableEq, Repr

/-- The repository as the adapter sees it: branch references
(`refs/heads/<name>`), commit objects, `HEAD`, and the changes made so far,
oldest first (the journal is bookkeeping of the embedding). -/
structure Repo where
  refs : List (GoString × Hash)
  commits : List (Hash × Commit)
  head : Head
  journal : List Effect
  deriving DecidableEq, Repr

/-- The call sites of engine primitives in `SquashAndRebase` that can fail for
reasons outside the repository state. -/
inductive Prim where
  | plainOpen
  | worktree
  | head
  | referenceBase
  | referenceWorkspace
  | commitObject
  | configUserName
  | configUserEmail
  | encode
  | setEncodedObject
  | setReference
  | removeReference
  deriving DecidableEq, Repr

/-- How `worktree.Checkout` ends: done, failed before `HEAD` was moved, or
failed after `HEAD` was moved. -/
inductive CheckoutOutcome where
  | done
  | failedBeforeHead
  | failedAfterHead
  deriving DecidableEq, Repr

/-- The engine and the process environment during one call: which primitives
fail, how the checkout ends, the output of the two `git config --global`
commands after `strings.TrimSpace`, the clock, and the hash the object store
gives a commit. -/
structure Engine where
  fails : Prim → Bool
  checkout : CheckoutOutcome
  userName : String
  userEmail : String
  now : Nat
  hashOf : Commit → Hash

/-- Go function `gitRepository.GetUserSignature`. -/
def GetUserSignature (e : Engine) : Except Err Signature :=
  if e.fails .configUserName then
    .error (.wrap "failed to get user.name from git config" (.fault "exec"))
  else
    let name := e.userName
    if name = "" then .error .userNameNotSet
    else if e.fails .configUserEmail then
      .error (.wrap "failed to get user.email from git config" (.fault "exec"))
    else
      let email := e.userEmail
      if email = "" then .error .userEmailNotSet
      else .ok { Name := name, Email := email, When := e.now }

/-- The library call `repo.Head()`: `HEAD` resolved to a reference name and a
hash; it fails when `HEAD` names a branch that has no reference. The name is
`some b` for branch `b` and `none` for a detached `HEAD`. -/
def resolveHead (e : Engine) (r : Repo) : Except Err (Option GoString × Hash) :=
  if e.fails .head then .error (.fault "head")
  else
    match r.head with
    | .detached h => .ok (none, h)
    | .branch b =>
      match Assoc.get? r.refs b with
      | none => .error (.fault "reference not found")
      | some h => .ok (some b, h)

/-- Go function `gitRepository.GetCurrentBranch`. -/
def GetCurrentBranch (e : Engine) (r : Repo) : Except Err GoString :=
  if e.fails .plainOpen then .error (.wrap "failed to open repository" (.fault "open"))
  else
    match resolveHead e r with
    | .error err => .error (.wrap "failed to get HEAD reference" err)
    | .ok (none, _) => .error .headNotBranch
    | .ok (some b, _) => .ok b

/-- The library call `repo.Reference(plumbing.NewBranchReferenceName(b), true)`
made at call site `site`. -/
def reference (e : Engine) (site : Prim) (r : Repo) (b : GoString) : Except Err Hash :=
  if e.fails site then .error (.fault "reference")
  else
    match Assoc.get? r.refs b with
    | none => .error (.fault "reference not found")
    | some h => .ok h

/-- The library call `repo.CommitObject(h)`. -/
def commitObject (e : Engine) (r : Repo) (h : Hash) : Except Err Commit :=
  if e.fails .commitObject then .error (.fault "object")
  else
    match Assoc.get? r.commits h with
    | none => .error (.fault "object not found")
    | some c => .ok c

/-- Lines 303-318 of `SquashAndRebase`: update the base reference, check the
base branch out, delete the workspace branch. -/
def moveBranches (e : Engine) (baseBranch currentBranch : GoString) (commitHash : Hash)
    (r : Repo) : Except Err Unit × Repo :=
  if e.fails .setReference then
    (.error (.wrap "failed to update base branch reference" (.fault "set reference")), r)
  else
    let r1 : Repo :=
      { r with refs := Assoc.put r.refs baseBranch commitHash,
               journal := r.journal ++ [.setReference baseBranch commitHash] }
    match e.checkout with
    | .failedBeforeHead =>
      (.error (.wrap "failed to checkout base branch" (.fault "checkout")), r1)
    | .failedAfterHead =>
      (.error (.wrap "failed to checkout base branch" (.fault "checkout")),
        { r1 with head := .branch baseBranch })
    | .done =>
      let r2 : Repo :=
        { r1 with head := .branch baseBranch, journal := r1.journal ++ [.checkout baseBranch] }
      if e.fails .removeReference then
        (.error (.wrap "failed to delete workspace branch" (.fault "remove reference")), r2)
      else
        (.ok (),
          { r2 with refs := Assoc.remove r2.refs currentBranch,
                    journal := r2.journal ++ [.removeReference currentBranch] })

/-- The commit object built at lines 285-291 of `SquashAndRebase`. -/
def squashedCommit (signature : Signature) (commitMessage : GoString) (workspaceCommitObj : Commit)
    (baseHash : Hash) : Commit :=
  { Author := signature, Committer := signature, Message := commitMessage,
    TreeHash := workspaceCommitObj.TreeHash, ParentHashes := [baseHash] }

/-- Go function `gitRepository.SquashAndRebase`. -/
def SquashAndRebase (e : Engine) (baseBranch commitMessage : GoString) (r : Repo) :
    Except Err Unit × Repo :=
  if e.fails .plainOpen then (.error (.wrap "failed to open repository" (.fault "open")), r)
  else if e.fails .worktree then (.error (.wrap "failed to get worktree" (.fault "worktree")), r)
  else
    match GetCurrentBranch e r with
    | .error err => (.error (.wrap "failed to get current branch" err), r)
    | .ok currentBranch =>
      if currentBranch = baseBranch then (.error (.alreadyOnBase baseBranch), r)
      else
        match reference e .referenceBase r baseBranch with
        | .error err => (.error (.wrap "failed to get base branch reference" err), r)
        | .ok baseHash =>
          match reference e .referenceWorkspace r currentBranch with
          | .error err => (.error (.wrap "failed to get workspace branch reference" err), r)
          | .ok workspaceHash =>
            match commitObject e r workspaceHash with
            | .error err => (.error (.wrap "failed to get workspace commit" err), r)
            | .ok workspaceCommitObj =>
              match GetUserSignature e with
              | .error err => (.error (.wrap "failed to get user signature" err), r)
              | .ok signature =>
                let squashed := squashedCommit signature commitMessage workspaceCommitObj baseHash
                if e.fails .encode then
                  (.error (.wrap "failed to encode squashed commit" (.fault "encode")), r)
                else if e.fails .setEncodedObject then
                  (.error (.wrap "failed to store squashed commit" (.fault "store")), r)
                else
                  let commitHash := e.hashOf squashed
                  let r1 : Repo :=
                    { r with commits := Assoc.put r.commits commitHash squashed,
                             journal := r.journal ++ [.storeObject commitHash] }
                  moveBranches e baseBranch currentBranch commitHash r1

/-- The commits met from `h` by following first parents, at most `n` of them. -/
def firstParentChain (commits : List (Hash × Commit)) : Nat → Hash → List Commit
  | 0, _ => []
  | n + 1, h =>
    match Assoc.get? commits h with
    | none => []
    | some c =>
      c :: (match c.ParentHashes with
            | [] => []
            | p :: _ => firstParentChain commits n p)

/-- The hashes visited from `h` by following first parents, at most `n` of
them, the last possibly naming an object that is not stored. -/
def firstParentHashes (commits : List (Hash × Commit)) : Nat → Hash → List Hash
  | 0, _ => []
  | n + 1, h =>
    h :: (match Assoc.get? commits h with
          | none => []
          | some c =>
            match c.ParentHashes with
            | [] => []
            | p :: _ => firstParentHashes commits n p)

/-- A repository for running the adapter on concrete inputs: trunk "luna" at
the initial commit "b0", workspace branch "feature" two commits ahead and
checked out. -/
def sampleRepo : Repo where
  refs := [("luna", "b0"), ("feature", "w2")]
  commits :=
    [("b0", ⟨⟨"Luna", "luna@vcs.local", 1⟩, ⟨"Luna", "luna@vcs.local", 1⟩,
        "Initial commit", "t0", []⟩),
     ("w1", ⟨⟨"Ada", "ada@example.org", 2⟩, ⟨"Ada", "ada@example.org", 2⟩, "D", "t1", ["b0"]⟩),
     ("w2", ⟨⟨"Ada", "ada@example.org", 3⟩, ⟨"Ada", "ada@example.org", 3⟩, "A", "t2", ["w1"]⟩)]
  head := .branch "feature"
  journal := []

/-- An engine for running the adapter on concrete inputs: no primitive fails
except that the checkout ends as given; a commit is stored under the hash
"squash". -/
def sampleEngine (checkout : CheckoutOutcome) : Engine where
  fails _ := false
  checkout := checkout
  userName := "Ada"
  userEmail := "ada@example.org"
  now := 9
  hashOf _ := "squash"

/-- An engine in which no primitive fails. -/
def Engine.sound (e : Engine) : Prop :=
  (∀ p, e.fails p = false) ∧ e.checkout = .done ∧ e.userName ≠ "" ∧ e.userEmail ≠ ""

end Git

/-! ## Invariant, reachable states and an in-memory adapter -/

/-- The invariant of the data model: the current-workspace pointer is empty
or is a key of the workspaces mapping. -/
def LunaMetadata.wellFormed (m : LunaMetadata) : Bool :=
  decide (m.CurrentWorkspace = "") || Assoc.contains m.Workspaces m.CurrentWorkspace

/-- The invariant on the persisted state: whatever `LoadMetadata` returns
from the file satisfies the invariant of the data model. -/
def Store.wellFormed (s : Store) : Bool :=
  match LoadMetadata s.file with
  | .ok m => m.wellFormed
  | .error _ => true

/-- The states reached from a repository without metadata file through the
operations that save metadata. -/
inductive Reachable {σ : Type} (git : Repository σ) : World σ → Prop where
  | empty (r : σ) : Reachable git { repo := r, store := { file := .absent, saves := 0 }, calls := [] }
  | storeCreateWorkspace (w : World σ) (sys : Sys) (name description : GoString) :
      Reachable git w →
      Reachable git
        { w with store := (MetadataService.CreateWorkspace sys name description w.store).2 }
  | storeAddStep (w : World σ) (sys : Sys) (description commitHash : GoString) :
      Reachable git w →
      Reachable git
        { w with store := (MetadataService.AddStep sys description commitHash w.store).2 }
  | createWorkspace (w : World σ) (sys : Sys) (name description : GoString) :
      Reachable git w →
      Reachable git (WorkspaceService.CreateWorkspace git sys name description w).2
  | createStep (w : World σ) (sys : Sys) (description : GoString) :
      Reachable git w → Reachable git (WorkspaceService.CreateStep git sys description w).2
  | finishWorkspace (w : World σ) (sys : Sys) :
      Reachable git w → Reachable git (WorkspaceService.FinishWorkspace git sys w).2

/-- An in-memory adapter for running the lifecycle on concrete inputs: its
state is the list of commit messages so far, every method succeeds, `Commit`
returns the hash "c0ffee", and `HasStagedChanges` reports `pending`. -/
def memoryRepository (pending : Bool) : Repository (List GoString) where
  IsRepository r := (.ok true, r)
  CreateBranch _ _ r := (.ok (), r)
  SwitchBranch _ r := (.ok (), r)
  StageAll r := (.ok (), r)
  Commit message r := (.ok "c0ffee", r ++ [message])
  HasStagedChanges r := (.ok pending, r)
  SquashAndRebase _ _ r := (.ok (), r)

/-! ## The git adapter: branches (`internal/git/service.go`) -/

namespace Git

/-- What `os.Stat` and `git.PlainOpen` find at `<path>/.git`. -/
inductive GitDir where
  | missing
  | statFails
  | unopenable
  | present
  deriving DecidableEq, Repr

/-- Go function `gitRepository.IsRepository`. -/
def IsRepository (dir : GitDir) : Except Err Bool :=
  match dir with
  | .missing => .ok false
  | .statFails => .error (.wrap "failed to check .git directory" (.fault "stat"))
  | .unopenable => .ok false
  | .present => .ok true

/-- Whether the branch names `a` and `b` cannot both have a reference file:
one of them followed by `/` begins the other, so that one reference file
would have to be a directory on the path of the other. -/
def refConflict (a b : GoString) : Bool :=
  List.isPrefixOf (a.chars ++ [GoChar.rune '/']) b.chars ||
    List.isPrefixOf (b.chars ++ [GoChar.rune '/']) a.chars

/-- Go function `gitRepository.CreateBranch`. The reference is written with
`SetReference` whether or not `branchName` already has one; `SetReference`
writes a reference file and fails when an existing reference stands in the
way of that file. -/
def CreateBranch (e : Engine) (branchName baseBranch : GoString) (r : Repo) :
    Except Err Unit × Repo :=
  if e.fails .plainOpen then (.error (.wrap "failed to open repository" (.fault "open")), r)
  else
    match reference e .referenceBase r baseBranch with
    | .error err => (.error (.wrap "failed to get base branch reference" err), r)
    | .ok baseHash =>
      if e.fails .setReference then
        (.error (.wrap "failed to create branch" (.fault "set reference")), r)
      else if r.refs.any (fun p => refConflict p.1 branchName) then
        (.error (.wrap "failed to create branch" (.fault "reference name conflict")), r)
      else
        (.ok (),
          { r with refs := Assoc.put r.refs branchName baseHash,
                   journal := r.journal ++ [.setReference branchName baseHash] })

/-- Go function `gitRepository.SwitchBranch`. The checkout resolves the
branch before it touches `HEAD`, so a branch without reference is an error
that changes nothing. -/
def SwitchBranch (e : Engine) (branchName : GoString) (r : Repo) : Except Err Unit × Repo :=
  if e.fails .plainOpen then (.error (.wrap "failed to open repository" (.fault "open")), r)
  else if e.fails .worktree then (.error (.wrap "failed to get worktree" (.fault "worktree")), r)
  else
    match Assoc.get? r.refs branchName with
    | none => (.error (.wrap "failed to checkout branch" (.fault "reference not found")), r)
    | some _ =>
      match e.checkout with
      | .failedBeforeHead => (.error (.wrap "failed to checkout branch" (.fault "checkout")), r)
      | .failedAfterHead =>
        (.error (.wrap "failed to checkout branch" (.fault "checkout")),
          { r with head := .branch branchName })
      | .done =>
        (.ok (),
          { r with head := .branch branchName, journal := r.journal ++ [.checkout branchName] })

/-- The methods of `gitRepository` that act on the working tree and the
index, which `Repo` does not describe: they are taken as given. -/
structure WorktreeOps where
  StageAll : Repo → Except Err Unit × Repo
  Commit : GoString → Repo → Except Err GoString × Repo
  HasStagedChanges : Repo → Except Err Bool × Repo

/-- The type `gitRepository` as an implementation of the interface
`Repository`, for an engine, a state of the `.git` directory and given
working-tree methods. -/
def gitRepository (e : Engine) (dir : GitDir) (wt : WorktreeOps) : Repository Repo where
  IsRepository r := (IsRepository dir, r)
  CreateBranch branchName baseBranch r := CreateBranch e branchName baseBranch r
  SwitchBranch branchName r := SwitchBranch e branchName r
  StageAll := wt.StageAll
  Commit := wt.Commit
  HasStagedChanges := wt.HasStagedChanges
  SquashAndRebase baseBranch commitMessage r := SquashAndRebase e baseBranch commitMessage r

/-- Working-tree methods of a clean working tree, for running the adapter on
concrete inputs: staging changes nothing, nothing is staged, and a commit is
refused as empty. -/
def cleanWorktree : WorktreeOps where
  StageAll r := (.ok (), r)
  Commit _ r := (.error (.wrap "failed to commit" (.fault "empty commit")), r)
  HasStagedChanges r := (.ok false, r)

end Git

/-- The in-memory adapter with a `SquashAndRebase` that fails, as it does on
the trunk branch. -/
def memoryRepositoryOnBase (pending : Bool) : Repository (List GoString) :=
  { memoryRepository pending with
    SquashAndRebase := fun baseBranch _ r => (.error (.alreadyOnBase baseBranch), r) }

/-! ## Lemmas on maps -/

namespace Assoc

theorem get?_remove_self {κ α : Type} [DecidableEq κ] (m : List (κ × α)) (k : κ) :
    get? (remove m k) k = none := by
  induction m with
  | nil => rfl
  | cons p rest ih =>
    obtain ⟨k1, v⟩ := p
    by_cases h : k1 = k
    · simpa [remove, List.filter_cons, h] using ih
    · simpa [remove, List.filter_cons, h, get?] using ih

theorem get?_remove_ne {κ α : Type} [DecidableEq κ] (m : List (κ × α)) (k k' : κ) (hne : k' ≠ k) :
    get? (remove m k) k' = get? m k' := by
  induction m with
  | nil => rfl
  | cons p rest ih =>
    obtain ⟨k1, v⟩ := p
    by_cases h : k1 = k
    · subst h
      have h1 : k1 ≠ k' := fun h2 => hne h2.symm
      simpa [remove, List.filter_cons, get?, h1] using ih
    · by_cases h2 : k1 = k'
      · subst h2
        simp [remove, List.filter_cons, h, get?]
      · simpa [remove, List.filter_cons, h, get?, h2] using ih

theorem get?_put_self {κ α : Type} [DecidableEq κ] (m : List (κ × α)) (k : κ) (v : α) :
    get? (put m k v) k = some v := by
  simp [put, get?]

theorem get?_put_ne {κ α : Type} [DecidableEq κ] (m : List (κ × α)) (k k' : κ) (v : α) (hne : k' ≠ k) :
    get? (put m k v) k' = get? m k' := by
  have h : k ≠ k' := fun h => hne h.symm
  simp [put, get?, h, get?_remove_ne m k k' hne]

theorem remove_remove {κ α : Type} [DecidableEq κ] (m : List (κ × α)) (k : κ) :
    remove (remove m k) k = remove m k := by
  simp [remove, List.filter_filter]

theorem remove_put {κ α : Type} [DecidableEq κ] (m : List (κ × α)) (k : κ) (v : α) :
    remove (put m k v) k = remove m k := by
  have h : remove (put m k v) k = remove (remove m k) k := by
    simp [put, remove, List.filter_cons]
  rw [h, remove_remove]

theorem contains_eq_true {κ α : Type} [DecidableEq κ] (m : List (κ × α)) (k : κ) (v : α)
    (h : get? m k = some v) : contains m k = true := by
  simp [contains, h]

theorem contains_eq_false {κ α : Type} [DecidableEq κ] (m : List (κ × α)) (k : κ)
    (h : get? m k = none) : contains m k = false := by
  simp [contains, h]

end Assoc

/-! ## Lemmas on coerced strings and on the members written to the file -/

theorem coerce_coerce_char (c : GoChar) : c.coerce.coerce = c.coerce := by
  cases c <;> rfl

theorem coerce_coerce_string (s : GoString) : s.coerce.coerce = s.coerce := by
  simp [GoString.coerce, coerce_coerce_char]

theorem GoString.coerce_ofString (s : String) :
    (GoString.ofString s).coerce = GoString.ofString s := by
  simp [GoString.coerce, GoString.ofString, GoChar.coerce]

theorem coerce_coerce_step (st : Step) : st.coerce.coerce = st.coerce := by
  simp [Step.coerce, coerce_coerce_string]

theorem coerce_coerce_workspace (ws : WorkspaceMetadata) :
    ws.coerce.coerce = ws.coerce := by
  simp [WorkspaceMetadata.coerce, coerce_coerce_string, coerce_coerce_step]

theorem bytesLt_asymm : ∀ a b : List Nat, bytesLt a b = true → bytesLt b a = false := by
  intro a
  induction a with
  | nil =>
    intro b h
    cases b with
    | nil => simp [bytesLt] at h
    | cons y b => rfl
  | cons x a ih =>
    intro b h
    cases b with
    | nil => simp [bytesLt] at h
    | cons y b =>
      simp only [bytesLt] at h ⊢
      by_cases hxy : x < y
      · have hyx : ¬ y < x := Nat.lt_asymm hxy
        simp [hyx, hxy]
      · by_cases hyx : y < x
        · simp [hxy, hyx] at h
        · simp only [hxy, hyx, if_false] at h ⊢
          exact ih b h

theorem bytesLt_irrefl (a : List Nat) : bytesLt a a = false := by
  cases h : bytesLt a a with
  | false => rfl
  | true =>
    have := bytesLt_asymm a a h
    rw [h] at this
    exact Bool.noConfusion this

theorem readMembers_readMembers (ws : List (GoString × WorkspaceMetadata)) :
    readMembers (readMembers ws) = readMembers ws := by
  simp [readMembers, coerce_coerce_string, coerce_coerce_workspace]

/-- A list of members is left alone by the reader exactly when each of its
keys and records is. -/
theorem readMembers_eq_self (ws : List (GoString × WorkspaceMetadata)) :
    readMembers ws = ws ↔ ∀ p ∈ ws, p.1.coerce = p.1 ∧ p.2.coerce = p.2 := by
  induction ws with
  | nil => simp [readMembers]
  | cons p rest ih =>
    obtain ⟨k, v⟩ := p
    have ih1 : List.map (fun p => (p.1.coerce, p.2.coerce)) rest = rest ↔
        ∀ p ∈ rest, p.1.coerce = p.1 ∧ p.2.coerce = p.2 := ih
    simp only [readMembers, List.map_cons, List.cons.injEq, Prod.mk.injEq, List.mem_cons,
      forall_eq_or_imp, ih1]

theorem readMembers_remove (ws : List (GoString × WorkspaceMetadata)) (k : GoString)
    (h : readMembers ws = ws) : readMembers (Assoc.remove ws k) = Assoc.remove ws k := by
  rw [readMembers_eq_self] at h ⊢
  intro p hp
  exact h p (List.mem_of_mem_filter hp)

theorem writtenMembers_of_keys (ws : List (GoString × WorkspaceMetadata))
    (h : ∀ p ∈ ws, p.1.coerce = p.1) : writtenMembers ws = readMembers ws := by
  unfold writtenMembers
  congr 1
  rw [List.filter_eq_self]
  intro p hp
  simp only [Bool.not_eq_true', List.any_eq_false, Bool.and_eq_true, decide_eq_true_eq,
    not_and, Bool.not_eq_true]
  intro q hq heq
  have hqp : q.1 = p.1 := by rw [← h q hq, ← h p hp, heq]
  rw [hqp]
  exact bytesLt_irrefl _

theorem writtenMembers_eq_self (ws : List (GoString × WorkspaceMetadata))
    (h : readMembers ws = ws) : writtenMembers ws = ws := by
  rw [writtenMembers_of_keys ws (fun p hp => ((readMembers_eq_self ws).1 h p hp).1), h]

theorem readMembers_writtenMembers (ws : List (GoString × WorkspaceMetadata)) :
    readMembers (writtenMembers ws) = writtenMembers ws := by
  unfold writtenMembers
  exact readMembers_readMembers _

theorem Assoc.mem_of_get? {κ α : Type} [DecidableEq κ] (m : List (κ × α)) (k : κ) (v : α)
    (h : Assoc.get? m k = some v) : (k, v) ∈ m := by
  induction m with
  | nil => simp [Assoc.get?] at h
  | cons p rest ih =>
    obtain ⟨k1, v1⟩ := p
    by_cases hk : k1 = k
    · subst hk
      simp [Assoc.get?] at h
      simp [h]
    · simp [Assoc.get?, hk] at h
      exact List.mem_cons_of_mem _ (ih h)

theorem Assoc.get?_isSome_of_mem {κ α : Type} [DecidableEq κ] (m : List (κ × α)) (p : κ × α)
    (h : p ∈ m) : (Assoc.get? m p.1).isSome = true := by
  induction m with
  | nil => simp at h
  | cons q rest ih =>
    obtain ⟨k1, v1⟩ := q
    by_cases hk : k1 = p.1
    · simp [Assoc.get?, hk]
    · simp only [Assoc.get?, hk, if_false]
      rcases List.mem_cons.1 h with h1 | h1
      · exact absurd (congrArg Prod.fst h1).symm hk
      · exact ih h1

/-- What `LoadMetadata` returns is left alone by the coercion: its strings
are valid UTF-8. -/
theorem LoadMetadata_coerced (file : MetadataFile) (m : LunaMetadata)
    (h : LoadMetadata file = .ok m) :
    readMembers m.Workspaces = m.Workspaces ∧ m.CurrentWorkspace.coerce = m.CurrentWorkspace := by
  cases file with
  | absent =>
    simp only [LoadMetadata, Except.ok.injEq] at h
    subst h
    exact ⟨rfl, GoString.coerce_ofString ""⟩
  | unreadable => simp [LoadMetadata] at h
  | malformed => simp [LoadMetadata] at h
  | json workspaces current =>
    cases workspaces with
    | none =>
      simp only [LoadMetadata, Except.ok.injEq] at h
      subst h
      exact ⟨rfl, coerce_coerce_string _⟩
    | some ws =>
      simp only [LoadMetadata, Except.ok.injEq] at h
      subst h
      exact ⟨readMembers_readMembers _, coerce_coerce_string _⟩

/-- A record found in loaded metadata is left alone by the coercion, and so
is its key. -/
theorem LoadMetadata_record_coerced (file : MetadataFile) (m : LunaMetadata) (k : GoString)
    (ws : WorkspaceMetadata) (h : LoadMetadata file = .ok m)
    (hk : Assoc.get? m.Workspaces k = some ws) : k.coerce = k ∧ ws.coerce = ws :=
  (readMembers_eq_self m.Workspaces).1 (LoadMetadata_coerced file m h).1 (k, ws)
    (Assoc.mem_of_get? _ _ _ hk)

/-- Overwriting a file that could be loaded gives a JSON document. -/
theorem MetadataFile.overwrite_of_load (file : MetadataFile) (m0 metadata : LunaMetadata)
    (h : LoadMetadata file = .ok m0) :
    file.overwrite metadata =
      .json (some (writtenMembers metadata.Workspaces)) metadata.CurrentWorkspace.coerce := by
  cases file with
  | unreadable => simp [LoadMetadata] at h
  | absent => rfl
  | malformed => rfl
  | json workspaces current => rfl

/-! ## Metadata store: `SaveMetadata` -/

theorem SaveMetadata_ok (sys : Sys) (metadata : LunaMetadata) (s : Store)
    (hmk : sys.mkdirFails = false) (hwr : sys.write = .written) :
    SaveMetadata sys metadata s =
      (.ok (), { file := s.file.overwrite metadata, saves := s.saves + 1 }) := by
  simp [SaveMetadata, hmk, hwr]

/-- The three ways in which `SaveMetadata` ends: the document is written; it
fails with the file as it was; it fails with the file cut short. -/
theorem SaveMetadata_cases (sys : Sys) (metadata : LunaMetadata) (s : Store) :
    (sys.mkdirFails = false ∧ sys.write = .written ∧
      SaveMetadata sys metadata s =
        (.ok (), { file := s.file.overwrite metadata, saves := s.saves + 1 })) ∨
    (∃ e, SaveMetadata sys metadata s =
        (.error e, { file := s.file, saves := s.saves + 1 })) ∨
    (∃ e, SaveMetadata sys metadata s =
        (.error e, { file := s.file.cut, saves := s.saves + 1 })) := by
  unfold SaveMetadata
  by_cases hmk : sys.mkdirFails = true
  · right; left; simp [hmk]
  · cases hwr : sys.write with
    | written => left; simp [hmk]
    | openFails => right; left; simp [hmk]
    | cutShort => right; right; simp [hmk]

theorem MetadataFile.cut_not_ok (file : MetadataFile) (m : LunaMetadata) :
    LoadMetadata file.cut ≠ .ok m := by
  cases file <;> simp [MetadataFile.cut, LoadMetadata]

/-- Of the members written for a map to which `k` was just bound, one has the
key `k.coerce`, provided the other keys are valid UTF-8. -/
theorem writtenMembers_put_contains (ws : List (GoString × WorkspaceMetadata)) (k : GoString)
    (v : WorkspaceMetadata) (hkeys : ∀ p ∈ ws, p.1.coerce = p.1) :
    Assoc.contains (writtenMembers (Assoc.put ws k v)) k.coerce = true := by
  have hsub : ∀ q ∈ Assoc.remove ws k, q.1.coerce = q.1 := fun q hq =>
    hkeys q (List.mem_of_mem_filter hq)
  have hex : ∃ p ∈ (Assoc.put ws k v).filter (fun p =>
      !((Assoc.put ws k v).any (fun q =>
          decide (q.1.coerce = p.1.coerce) && bytesLt p.1.bytes q.1.bytes))),
      p.1.coerce = k.coerce := by
    by_cases hkeep : (Assoc.put ws k v).any (fun q =>
        decide (q.1.coerce = k.coerce) && bytesLt k.bytes q.1.bytes) = true
    · rw [List.any_eq_true] at hkeep
      obtain ⟨q, hq, hcond⟩ := hkeep
      simp only [Bool.and_eq_true, decide_eq_true_eq] at hcond
      obtain ⟨hqk, hlt⟩ := hcond
      have hq1 : q ∈ Assoc.remove ws k := by
        rcases List.mem_cons.1 hq with h | h
        · rw [h] at hlt
          rw [bytesLt_irrefl] at hlt
          exact Bool.noConfusion hlt
        · exact h
      refine ⟨q, ?_, hqk⟩
      rw [List.mem_filter]
      refine ⟨hq, ?_⟩
      simp only [Bool.not_eq_true', List.any_eq_false, Bool.and_eq_true, decide_eq_true_eq,
        not_and, Bool.not_eq_true]
      intro q2 hq2 heq
      rcases List.mem_cons.1 hq2 with h | h
      · rw [h]
        exact bytesLt_asymm _ _ hlt
      · have : q2.1 = q.1 := by rw [← hsub q2 h, ← hsub q hq1, heq]
        rw [this]
        exact bytesLt_irrefl _
    · refine ⟨(k, v), ?_, rfl⟩
      rw [List.mem_filter]
      refine ⟨List.mem_cons_self _ _, ?_⟩
      simpa using hkeep
  obtain ⟨p, hp, hpk⟩ := hex
  have hmem : (p.1.coerce, p.2.coerce) ∈ writtenMembers (Assoc.put ws k v) := by
    unfold writtenMembers readMembers
    exact List.mem_map_of_mem _ hp
  have := Assoc.get?_isSome_of_mem _ _ hmem
  rw [← hpk]
  exact this

/-- The members written for a map of valid UTF-8 to which `k` was just bound,
when the stored form of `k` was not a key. -/
theorem writtenMembers_put_new (ws : List (GoString × WorkspaceMetadata)) (k : GoString)
    (v : WorkspaceMetadata) (hfix : readMembers ws = ws)
    (hnew : Assoc.get? ws k.coerce = none) :
    writtenMembers (Assoc.put ws k v) = (k.coerce, v.coerce) :: Assoc.remove ws k := by
  have hkeys : ∀ p ∈ ws, p.1.coerce = p.1 := fun p hp =>
    ((readMembers_eq_self ws).1 hfix p hp).1
  have hnot : ∀ q ∈ ws, q.1 ≠ k.coerce := by
    intro q hq heq
    have := Assoc.get?_isSome_of_mem ws q hq
    rw [heq, hnew] at this
    exact Bool.noConfusion this
  have hfilter : (Assoc.put ws k v).filter (fun p =>
      !((Assoc.put ws k v).any (fun q =>
          decide (q.1.coerce = p.1.coerce) && bytesLt p.1.bytes q.1.bytes))) =
      Assoc.put ws k v := by
    rw [List.filter_eq_self]
    intro p hp
    simp only [Bool.not_eq_true', List.any_eq_false, Bool.and_eq_true, decide_eq_true_eq,
      not_and, Bool.not_eq_true]
    intro q hq heq
    rcases List.mem_cons.1 hp with h | h
    · rcases List.mem_cons.1 hq with h2 | h2
      · rw [h, h2]
        exact bytesLt_irrefl _
      · have hq2 := List.mem_of_mem_filter h2
        rw [h, hkeys q hq2] at heq
        exact absurd heq (hnot q hq2)
    · have hp2 := List.mem_of_mem_filter h
      rcases List.mem_cons.1 hq with h2 | h2
      · rw [h2, hkeys p hp2] at heq
        exact absurd heq.symm (hnot p hp2)
      · have hq2 := List.mem_of_mem_filter h2
        have : q.1 = p.1 := by rw [← hkeys q hq2, ← hkeys p hp2, heq]
        rw [this]
        exact bytesLt_irrefl _
  unfold writtenMembers
  rw [hfilter]
  show readMembers ((k, v) :: Assoc.remove ws k) = _
  have := readMembers_remove ws k hfix
  simp only [readMembers, List.map_cons] at this ⊢
  rw [this]

/-- The members written for a map of valid UTF-8 in which the valid key `k`
was bound again. -/
theorem writtenMembers_put_key (ws : List (GoString × WorkspaceMetadata)) (k : GoString)
    (v : WorkspaceMetadata) (hfix : readMembers ws = ws) (hk : k.coerce = k) :
    writtenMembers (Assoc.put ws k v) = Assoc.put ws k v.coerce := by
  have hkeys : ∀ p ∈ Assoc.put ws k v, p.1.coerce = p.1 := by
    intro p hp
    rcases List.mem_cons.1 hp with h | h
    · rw [h]; exact hk
    · exact ((readMembers_eq_self ws).1 hfix p (List.mem_of_mem_filter h)).1
  rw [writtenMembers_of_keys _ hkeys]
  show readMembers ((k, v) :: Assoc.remove ws k) = _
  have := readMembers_remove ws k hfix
  simp only [readMembers, List.map_cons] at this ⊢
  rw [this, hk]
  rfl

/-! ## Metadata store: `CreateWorkspace` and `AddStep` -/

/-- A `CreateWorkspace` of the store that returns success has loaded the
file, found no record under `name`, and written the document. -/
theorem storeCreateWorkspace_ok (sys : Sys) (name description : GoString) (s : Store)
    (hok : (MetadataService.CreateWorkspace sys name description s).1 = .ok ()) :
    ∃ m : LunaMetadata,
      LoadMetadata s.file = .ok m ∧
      (MetadataService.CreateWorkspace sys name description s).2 =
        { file := .json (some (writtenMembers (Assoc.put m.Workspaces name
              { Name := name, Description := description, CreatedAt := sys.now, Steps := [] })))
            name.coerce,
          saves := s.saves + 1 } := by
  unfold MetadataService.CreateWorkspace at hok ⊢
  cases hl : LoadMetadata s.file with
  | error e => simp [hl] at hok
  | ok m =>
    simp only [hl] at hok ⊢
    by_cases hc : Assoc.contains m.Workspaces name = true
    · simp [hc] at hok
    · simp only [hc] at hok ⊢
      rcases SaveMetadata_cases sys
        { Workspaces := Assoc.put m.Workspaces name
            { Name := name, Description := description, CreatedAt := sys.now, Steps := [] },
          CurrentWorkspace := name } s with ⟨_, _, h⟩ | ⟨e, h⟩ | ⟨e, h⟩
      · refine ⟨m, rfl, ?_⟩
        rw [h, MetadataFile.overwrite_of_load s.file m _ hl]
        simp
      · rw [h] at hok
        simp at hok
      · rw [h] at hok
        simp at hok

/-- Counterexample to C5 as stated: with the name `"a\xffb"`, which is not
valid UTF-8, a first `CreateWorkspace` on an empty store succeeds and records
the workspace under the key `"a\ufffdb"`; a second `CreateWorkspace` with the
same name does not find it, returns success as well, and the record of the
first workspace (description "first") is replaced by a new one. -/
theorem CreateWorkspace_twice_invalid_name :
    MetadataService.CreateWorkspace ⟨1, false, .written⟩ sampleInvalid "first" ⟨.absent, 0⟩ =
      (.ok (),
        ⟨.json (some [(sampleInvalid.coerce, ⟨sampleInvalid.coerce, "first", 1, []⟩)])
          sampleInvalid.coerce, 1⟩) ∧
    MetadataService.CreateWorkspace ⟨2, false, .written⟩ sampleInvalid "second"
        ⟨.json (some [(sampleInvalid.coerce, ⟨sampleInvalid.coerce, "first", 1, []⟩)])
          sampleInvalid.coerce, 1⟩ =
      (.ok (),
        ⟨.json (some [(sampleInvalid.coerce, ⟨sampleInvalid.coerce, "second", 2, []⟩)])
          sampleInvalid.coerce, 2⟩) :=
  ⟨rfl, rfl⟩

/-- C5, amended. When `name` is already a key of the workspaces mapping, the
store's `CreateWorkspace` returns the "already exists" error and leaves the
store as it was (file and save count), so the recorded workspace keeps its
description and steps and the current-workspace pointer is not changed. Hence,
after any successful `CreateWorkspace` of a name whose stored form is `name`
(the name itself when it is valid UTF-8), a `CreateWorkspace` of `name` fails
in this way. -/
theorem CreateWorkspace_existing_name_rejected (sys : Sys) (name description : GoString)
    (s : Store) (m : LunaMetadata) (ws : WorkspaceMetadata)
    (hload : LoadMetadata s.file = .ok m)
    (hkey : Assoc.get? m.Workspaces name = some ws) :
    MetadataService.CreateWorkspace sys name description s = (.error (.workspaceExists name), s) ∧
    ∀ (sys0 : Sys) (name0 description0 : GoString) (s0 : Store), name0.coerce = name →
      (MetadataService.CreateWorkspace sys0 name0 description0 s0).1 = .ok () →
      MetadataService.CreateWorkspace sys name description
          (MetadataService.CreateWorkspace sys0 name0 description0 s0).2 =
        (.error (.workspaceExists name),
          (MetadataService.CreateWorkspace sys0 name0 description0 s0).2) := by
  constructor
  · simp [MetadataService.CreateWorkspace, hload, Assoc.contains_eq_true _ _ _ hkey]
  · intro sys0 name0 description0 s0 hname hok
    obtain ⟨m0, hl0, hrun⟩ := storeCreateWorkspace_ok sys0 name0 description0 s0 hok
    rw [hrun]
    have hkeys : ∀ p ∈ m0.Workspaces, p.1.coerce = p.1 := fun p hp =>
      ((readMembers_eq_self _).1 (LoadMetadata_coerced _ _ hl0).1 p hp).1
    have hc := writtenMembers_put_contains m0.Workspaces name0
      { Name := name0, Description := description0, CreatedAt := sys0.now, Steps := [] } hkeys
    rw [hname] at hc
    simp [MetadataService.CreateWorkspace, LoadMetadata, readMembers_writtenMembers, hc]

/-- Witness of C5, amended: a store that records workspace "feature". -/
theorem CreateWorkspace_existing_name_rejected_witness :
    MetadataService.CreateWorkspace ⟨7, false, .written⟩ "feature" "again"
        ⟨.json (some [("feature", ⟨"feature", "first", 1, []⟩)]) "feature", 1⟩ =
      (.error (.workspaceExists "feature"),
        ⟨.json (some [("feature", ⟨"feature", "first", 1, []⟩)]) "feature", 1⟩) ∧
    MetadataService.CreateWorkspace ⟨7, false, .written⟩ "feature" "again"
        (MetadataService.CreateWorkspace ⟨1, false, .written⟩ "feature" "first"
          ⟨.absent, 0⟩).2 =
      (.error (.workspaceExists "feature"),
        (MetadataService.CreateWorkspace ⟨1, false, .written⟩ "feature" "first"
          ⟨.absent, 0⟩).2) :=
  ⟨(CreateWorkspace_existing_name_rejected ⟨7, false, .written⟩ "feature" "again"
      ⟨.json (some [("feature", ⟨"feature", "first", 1, []⟩)]) "feature", 1⟩
      ⟨[("feature", ⟨"feature", "first", 1, []⟩)], "feature"⟩ ⟨"feature", "first", 1, []⟩
      rfl (by decide)).1,
    (CreateWorkspace_existing_name_rejected ⟨7, false, .written⟩ "feature" "again"
      ⟨.json (some [("feature", ⟨"feature", "first", 1, []⟩)]) "feature", 1⟩
      ⟨[("feature", ⟨"feature", "first", 1, []⟩)], "feature"⟩ ⟨"feature", "first", 1, []⟩
      rfl (by decide)).2 ⟨1, false, .written⟩ "feature" "first" ⟨.absent, 0⟩ (by decide) rfl⟩

/-- Counterexample to C9 as stated: an `AddStep` with the description
`"a\xffb"`, which is not valid UTF-8, succeeds, and the step then recorded
carries the description `"a\ufffdb"`, not the given one. -/
theorem AddStep_invalid_description :
    (MetadataService.AddStep ⟨9, false, .written⟩ sampleInvalid "c0ffee"
        ⟨.json (some [("feature", ⟨"feature", "D", 1, []⟩)]) "feature", 0⟩).1 = .ok () ∧
    LoadMetadata (MetadataService.AddStep ⟨9, false, .written⟩ sampleInvalid "c0ffee"
        ⟨.json (some [("feature", ⟨"feature", "D", 1, []⟩)]) "feature", 0⟩).2.file =
      .ok ⟨[("feature", ⟨"feature", "D", 1, [⟨sampleInvalid.coerce, "c0ffee", 9⟩]⟩)],
        "feature"⟩ ∧
    sampleInvalid.coerce ≠ sampleInvalid :=
  ⟨rfl, rfl, by decide⟩

/-- C9, amended. `AddStep` on a loadable store: with an empty
current-workspace pointer it fails with "no active workspace"; with a pointer
that is not a key it fails with "current workspace not found"; in both cases
the store is left as it was. Otherwise, when the save succeeds, it returns
success and the saved metadata binds the current workspace to its old record
with exactly one new step appended to the old steps, which carries the stored
forms of the given description and commit hash (the given ones when they are
valid UTF-8); the pointer and every other record are unchanged. -/
theorem AddStep_spec (sys : Sys) (description commitHash : GoString) (s : Store)
    (m : LunaMetadata) (hload : LoadMetadata s.file = .ok m) :
    (m.CurrentWorkspace = "" →
      MetadataService.AddStep sys description commitHash s = (.error .noActiveWorkspace, s)) ∧
    (m.CurrentWorkspace ≠ "" → Assoc.get? m.Workspaces m.CurrentWorkspace = none →
      MetadataService.AddStep sys description commitHash s =
        (.error (.currentWorkspaceNotFound m.CurrentWorkspace), s)) ∧
    (∀ ws : WorkspaceMetadata, m.CurrentWorkspace ≠ "" →
      Assoc.get? m.Workspaces m.CurrentWorkspace = some ws →
      sys.mkdirFails = false → sys.write = .written →
      (MetadataService.AddStep sys description commitHash s).1 = .ok () ∧
      ∃ m1 : LunaMetadata,
        LoadMetadata (MetadataService.AddStep sys description commitHash s).2.file = .ok m1 ∧
        m1.CurrentWorkspace = m.CurrentWorkspace ∧
        Assoc.get? m1.Workspaces m.CurrentWorkspace =
          some { Name := ws.Name, Description := ws.Description, CreatedAt := ws.CreatedAt,
                 Steps := ws.Steps ++ [{ Description := description.coerce,
                                          CommitHash := commitHash.coerce,
                                          CreatedAt := sys.now }] } ∧
        (description.coerce = description → commitHash.coerce = commitHash →
          Assoc.get? m1.Workspaces m.CurrentWorkspace =
            some { Name := ws.Name, Description := ws.Description, CreatedAt := ws.CreatedAt,
                   Steps := ws.Steps ++ [{ Description := description,
                                            CommitHash := commitHash,
                                            CreatedAt := sys.now }] }) ∧
        ∀ k : GoString, k ≠ m.CurrentWorkspace →
          Assoc.get? m1.Workspaces k = Assoc.get? m.Workspaces k) := by
  refine ⟨?_, ?_, ?_⟩
  · intro hcur
    simp [MetadataService.AddStep, hload, hcur]
  · intro hcur hnone
    simp [MetadataService.AddStep, hload, hcur, hnone]
  · intro ws hcur hsome hmk hwr
    obtain ⟨hfix, hcurfix⟩ := LoadMetadata_coerced _ _ hload
    obtain ⟨_, hwsfix⟩ := LoadMetadata_record_coerced _ _ _ _ hload hsome
    have hws1 : WorkspaceMetadata.coerce
          ⟨ws.Name, ws.Description, ws.CreatedAt,
            ws.Steps ++ [⟨description, commitHash, sys.now⟩]⟩ =
        ⟨ws.Name, ws.Description, ws.CreatedAt,
          ws.Steps ++ [⟨description.coerce, commitHash.coerce, sys.now⟩]⟩ := by
      have h1 : ws.Name.coerce = ws.Name := congrArg WorkspaceMetadata.Name hwsfix
      have h2 : ws.Description.coerce = ws.Description :=
        congrArg WorkspaceMetadata.Description hwsfix
      have h3 : ws.Steps.map Step.coerce = ws.Steps := congrArg WorkspaceMetadata.Steps hwsfix
      simp [WorkspaceMetadata.coerce, h1, h2, h3, Step.coerce]
    have h : MetadataService.AddStep sys description commitHash s =
        (.ok (),
          { file := .json (some (Assoc.put m.Workspaces m.CurrentWorkspace
              { Name := ws.Name, Description := ws.Description, CreatedAt := ws.CreatedAt,
                Steps := ws.Steps ++ [{ Description := description.coerce,
                                         CommitHash := commitHash.coerce,
                                         CreatedAt := sys.now }] })) m.CurrentWorkspace,
            saves := s.saves + 1 }) := by
      simp only [MetadataService.AddStep, hload, hcur, hsome, if_false,
        SaveMetadata_ok _ _ _ hmk hwr, MetadataFile.overwrite_of_load s.file m _ hload,
        writtenMembers_put_key _ _ _ hfix hcurfix, hws1, hcurfix]
    have hfix1 : readMembers (Assoc.put m.Workspaces m.CurrentWorkspace
        { Name := ws.Name, Description := ws.Description, CreatedAt := ws.CreatedAt,
          Steps := ws.Steps ++ [{ Description := description.coerce,
                                   CommitHash := commitHash.coerce,
                                   CreatedAt := sys.now }] }) =
        Assoc.put m.Workspaces m.CurrentWorkspace
        { Name := ws.Name, Description := ws.Description, CreatedAt := ws.CreatedAt,
          Steps := ws.Steps ++ [{ Description := description.coerce,
                                   CommitHash := commitHash.coerce,
                                   CreatedAt := sys.now }] } := by
      rw [← hws1, ← writtenMembers_put_key _ _ _ hfix hcurfix]
      exact readMembers_writtenMembers _
    rw [h]
    refine ⟨rfl, _, rfl, hcurfix, ?_, ?_, ?_⟩
    · show Assoc.get? (readMembers _) _ = _
      rw [hfix1]
      exact Assoc.get?_put_self _ _ _
    · intro hd hc
      show Assoc.get? (readMembers _) _ = _
      rw [hfix1, Assoc.get?_put_self, hd, hc]
    · intro k hk
      show Assoc.get? (readMembers _) _ = _
      rw [hfix1]
      exact Assoc.get?_put_ne _ _ _ _ hk

/-- Witness of C9, amended: a step "A" added to workspace "feature", which
has one step already, next to an untouched workspace "other". -/
theorem AddStep_spec_witness :
    (MetadataService.AddStep ⟨9, false, .written⟩ "A" "c0ffee"
        ⟨.json (some [("feature", ⟨"feature", "D", 1, [⟨"Z", "beef", 2⟩]⟩),
                      ("other", ⟨"other", "O", 3, []⟩)]) "feature", 0⟩).1 = .ok () ∧
    LoadMetadata (MetadataService.AddStep ⟨9, false, .written⟩ "A" "c0ffee"
        ⟨.json (some [("feature", ⟨"feature", "D", 1, [⟨"Z", "beef", 2⟩]⟩),
                      ("other", ⟨"other", "O", 3, []⟩)]) "feature", 0⟩).2.file =
      .ok ⟨[("feature", ⟨"feature", "D", 1, [⟨"Z", "beef", 2⟩, ⟨"A", "c0ffee", 9⟩]⟩),
            ("other", ⟨"other", "O", 3, []⟩)], "feature"⟩ :=
  ⟨((AddStep_spec ⟨9, false, .written⟩ "A" "c0ffee"
      ⟨.json (some [("feature", ⟨"feature", "D", 1, [⟨"Z", "beef", 2⟩]⟩),
                    ("other", ⟨"other", "O", 3, []⟩)]) "feature", 0⟩
      ⟨[("feature", ⟨"feature", "D", 1, [⟨"Z", "beef", 2⟩]⟩), ("other", ⟨"other", "O", 3, []⟩)],
        "feature"⟩ rfl).2.2 ⟨"feature", "D", 1, [⟨"Z", "beef", 2⟩]⟩ (by decide) (by decide)
      rfl rfl).1,
    rfl⟩

/-- Counterexample to C10 as stated: `"a\xffb"` is not a key of the empty
mapping and the save succeeds, but afterwards the mapping has no key
`"a\xffb"` and the current-workspace pointer is not `"a\xffb"`: the workspace
is recorded, and current, under `"a\ufffdb"`. -/
theorem CreateWorkspace_invalid_name :
    (MetadataService.CreateWorkspace ⟨5, false, .written⟩ sampleInvalid "D" ⟨.absent, 0⟩).1 =
      .ok () ∧
    LoadMetadata (MetadataService.CreateWorkspace ⟨5, false, .written⟩ sampleInvalid "D"
        ⟨.absent, 0⟩).2.file =
      .ok ⟨[(sampleInvalid.coerce, ⟨sampleInvalid.coerce, "D", 5, []⟩)], sampleInvalid.coerce⟩ ∧
    Assoc.get? [(sampleInvalid.coerce, (⟨sampleInvalid.coerce, "D", 5, []⟩ : WorkspaceMetadata))]
      sampleInvalid = none ∧
    sampleInvalid.coerce ≠ sampleInvalid :=
  ⟨rfl, rfl, by decide, by decide⟩

/-- C10, amended. When the stored form of `name` (the name itself when it is
valid UTF-8) is not a key of the workspaces mapping of a loadable store and
the save succeeds, the store's `CreateWorkspace` returns success and the saved
metadata binds the stored form of `name` to a workspace with that name, the
stored form of the given description and no steps, has the stored form of
`name` as current workspace, and binds every other key as before. -/
theorem CreateWorkspace_new_name (sys : Sys) (name description : GoString) (s : Store)
    (m : LunaMetadata) (hload : LoadMetadata s.file = .ok m)
    (hnew : Assoc.get? m.Workspaces name.coerce = none)
    (hmk : sys.mkdirFails = false) (hwr : sys.write = .written) :
    (MetadataService.CreateWorkspace sys name description s).1 = .ok () ∧
    ∃ m1 : LunaMetadata,
      LoadMetadata (MetadataService.CreateWorkspace sys name description s).2.file = .ok m1 ∧
      Assoc.get? m1.Workspaces name.coerce =
        some { Name := name.coerce, Description := description.coerce, CreatedAt := sys.now,
               Steps := [] } ∧
      m1.CurrentWorkspace = name.coerce ∧
      (∀ k : GoString, k ≠ name.coerce →
        Assoc.get? m1.Workspaces k = Assoc.get? m.Workspaces k) ∧
      (∀ (k : GoString) (ws : WorkspaceMetadata),
        Assoc.get? m.Workspaces k = some ws → Assoc.get? m1.Workspaces k = some ws) := by
  obtain ⟨hfix, _⟩ := LoadMetadata_coerced _ _ hload
  have hraw : Assoc.get? m.Workspaces name = none := by
    cases hget : Assoc.get? m.Workspaces name with
    | none => rfl
    | some ws =>
      have := (LoadMetadata_record_coerced _ _ _ _ hload hget).1
      rw [this, hget] at hnew
      exact Option.noConfusion hnew
  have hwritten := writtenMembers_put_new m.Workspaces name
    { Name := name, Description := description, CreatedAt := sys.now, Steps := [] } hfix hnew
  have hfix1 : readMembers ((name.coerce,
      WorkspaceMetadata.coerce ⟨name, description, sys.now, []⟩) ::
        Assoc.remove m.Workspaces name) =
      (name.coerce, WorkspaceMetadata.coerce ⟨name, description, sys.now, []⟩) ::
        Assoc.remove m.Workspaces name := by
    rw [← hwritten]
    exact readMembers_writtenMembers _
  have h : MetadataService.CreateWorkspace sys name description s =
      (.ok (),
        { file := .json (some ((name.coerce,
              WorkspaceMetadata.coerce ⟨name, description, sys.now, []⟩) ::
                Assoc.remove m.Workspaces name)) name.coerce,
          saves := s.saves + 1 }) := by
    simp only [MetadataService.CreateWorkspace, hload, Assoc.contains_eq_false _ _ hraw,
      SaveMetadata_ok _ _ _ hmk hwr, MetadataFile.overwrite_of_load s.file m _ hload, hwritten]
    rfl
  have hother : ∀ k : GoString, k ≠ name.coerce →
      Assoc.get? ((name.coerce, WorkspaceMetadata.coerce ⟨name, description, sys.now, []⟩) ::
        Assoc.remove m.Workspaces name) k = Assoc.get? m.Workspaces k := by
    intro k hk
    have hk2 : name.coerce ≠ k := fun h => hk h.symm
    simp only [Assoc.get?, hk2, if_false]
    by_cases hkn : k = name
    · rw [hkn, Assoc.get?_remove_self, hraw]
    · exact Assoc.get?_remove_ne _ _ _ hkn
  rw [h]
  refine ⟨rfl, _, rfl, ?_, coerce_coerce_string _, ?_, ?_⟩
  · show Assoc.get? (readMembers _) _ = _
    rw [hfix1]
    simp [Assoc.get?, WorkspaceMetadata.coerce]
  · intro k hk
    show Assoc.get? (readMembers _) _ = _
    rw [hfix1]
    exact hother k hk
  · intro k ws hk
    show Assoc.get? (readMembers _) _ = _
    rw [hfix1]
    have hne : k ≠ name.coerce := by
      intro heq
      rw [heq, hnew] at hk
      exact Option.noConfusion hk
    rw [hother k hne, hk]

/-- Witness of C10, amended: "feature" created next to an existing workspace
"other", starting from a file whose pointer is empty. -/
theorem CreateWorkspace_new_name_witness :
    (MetadataService.CreateWorkspace ⟨5, false, .written⟩ "feature" "D"
        ⟨.json (some [("other", ⟨"other", "O", 3, []⟩)]) "", 0⟩).1 = .ok () ∧
    LoadMetadata (MetadataService.CreateWorkspace ⟨5, false, .written⟩ "feature" "D"
        ⟨.json (some [("other", ⟨"other", "O", 3, []⟩)]) "", 0⟩).2.file =
      .ok ⟨[("feature", ⟨"feature", "D", 5, []⟩), ("other", ⟨"other", "O", 3, []⟩)],
        "feature"⟩ :=
  ⟨(CreateWorkspace_new_name ⟨5, false, .written⟩ "feature" "D"
      ⟨.json (some [("other", ⟨"other", "O", 3, []⟩)]) "", 0⟩
      ⟨[("other", ⟨"other", "O", 3, []⟩)], ""⟩ rfl (by decide) rfl rfl).1,
    rfl⟩

/-- The run of a successful `AddStep`. -/
theorem storeAddStep_run (sys : Sys) (description commitHash : GoString) (s : Store)
    (m : LunaMetadata) (ws : WorkspaceMetadata) (hload : LoadMetadata s.file = .ok m)
    (hcur : m.CurrentWorkspace ≠ "")
    (hsome : Assoc.get? m.Workspaces m.CurrentWorkspace = some ws)
    (hmk : sys.mkdirFails = false) (hwr : sys.write = .written) :
    MetadataService.AddStep sys description commitHash s =
      (.ok (),
        { file := .json (some (Assoc.put m.Workspaces m.CurrentWorkspace
            ⟨ws.Name, ws.Description, ws.CreatedAt,
              ws.Steps ++ [⟨description.coerce, commitHash.coerce, sys.now⟩]⟩))
            m.CurrentWorkspace,
          saves := s.saves + 1 }) := by
  obtain ⟨hfix, hcurfix⟩ := LoadMetadata_coerced _ _ hload
  obtain ⟨_, hwsfix⟩ := LoadMetadata_record_coerced _ _ _ _ hload hsome
  have hws1 : WorkspaceMetadata.coerce
        ⟨ws.Name, ws.Description, ws.CreatedAt,
          ws.Steps ++ [⟨description, commitHash, sys.now⟩]⟩ =
      ⟨ws.Name, ws.Description, ws.CreatedAt,
        ws.Steps ++ [⟨description.coerce, commitHash.coerce, sys.now⟩]⟩ := by
    have h1 : ws.Name.coerce = ws.Name := congrArg WorkspaceMetadata.Name hwsfix
    have h2 : ws.Description.coerce = ws.Description :=
      congrArg WorkspaceMetadata.Description hwsfix
    have h3 : ws.Steps.map Step.coerce = ws.Steps := congrArg WorkspaceMetadata.Steps hwsfix
    simp [WorkspaceMetadata.coerce, h1, h2, h3, Step.coerce]
  simp only [MetadataService.AddStep, hload, hcur, hsome, if_false,
    SaveMetadata_ok _ _ _ hmk hwr, MetadataFile.overwrite_of_load s.file m _ hload,
    writtenMembers_put_key _ _ _ hfix hcurfix, hws1, hcurfix]

/-- An `AddStep` that returns success has found the current workspace and
written the document with the step appended. -/
theorem storeAddStep_ok (sys : Sys) (description commitHash : GoString) (s : Store)
    (m : LunaMetadata) (hload : LoadMetadata s.file = .ok m)
    (hok : (MetadataService.AddStep sys description commitHash s).1 = .ok ()) :
    ∃ ws : WorkspaceMetadata,
      Assoc.get? m.Workspaces m.CurrentWorkspace = some ws ∧
      MetadataService.AddStep sys description commitHash s =
        (.ok (),
          { file := .json (some (Assoc.put m.Workspaces m.CurrentWorkspace
              ⟨ws.Name, ws.Description, ws.CreatedAt,
                ws.Steps ++ [⟨description.coerce, commitHash.coerce, sys.now⟩]⟩))
              m.CurrentWorkspace,
            saves := s.saves + 1 }) := by
  by_cases hcur : m.CurrentWorkspace = ""
  · simp [MetadataService.AddStep, hload, hcur] at hok
  · cases hget : Assoc.get? m.Workspaces m.CurrentWorkspace with
    | none => simp [MetadataService.AddStep, hload, hcur, hget] at hok
    | some ws =>
      refine ⟨ws, rfl, ?_⟩
      rcases SaveMetadata_cases sys
        ⟨Assoc.put m.Workspaces m.CurrentWorkspace
            ⟨ws.Name, ws.Description, ws.CreatedAt,
              ws.Steps ++ [⟨description, commitHash, sys.now⟩]⟩, m.CurrentWorkspace⟩ s
        with ⟨hmk, hwr, _⟩ | ⟨e, h⟩ | ⟨e, h⟩
      · exact storeAddStep_run sys description commitHash s m ws hload hcur hget hmk hwr
      · simp only [MetadataService.AddStep, hload, hcur, hget, if_false] at hok
        rw [h] at hok
        simp at hok
      · simp only [MetadataService.AddStep, hload, hcur, hget, if_false] at hok
        rw [h] at hok
        simp at hok

/-! ## Workspace lifecycle: no active workspace -/

/-- C6. When the loaded current-workspace pointer is empty, `FinishWorkspace`
and `CreateStep` each return their "no active workspace" error and leave the
whole state as it was: no adapter method is invoked (the list of calls is the
same), `SaveMetadata` is not called (the save count is the same) and the
metadata file is the same. -/
theorem no_active_workspace_no_mutation {σ : Type} (git : Repository σ) (sys : Sys)
    (description : GoString) (w : World σ) (m : LunaMetadata)
    (hload : LoadMetadata w.store.file = .ok m) (hcur : m.CurrentWorkspace = "") :
    WorkspaceService.FinishWorkspace git sys w = (.error .noActiveWorkspace, w) ∧
    WorkspaceService.CreateStep git sys description w = (.error .noActiveWorkspaceHint, w) := by
  constructor
  · simp [WorkspaceService.FinishWorkspace, MetadataService.GetCurrentWorkspace, hload, hcur]
  · simp [WorkspaceService.CreateStep, hload, hcur]

/-- Witness of C6: a repository whose metadata file records one workspace but
no current one. -/
theorem no_active_workspace_no_mutation_witness :
    WorkspaceService.FinishWorkspace (memoryRepository true) ⟨4, false, .written⟩
        ⟨["seed"], ⟨.json (some [("other", ⟨"other", "O", 3, []⟩)]) "", 2⟩, [.stageAll]⟩ =
      (.error .noActiveWorkspace,
        ⟨["seed"], ⟨.json (some [("other", ⟨"other", "O", 3, []⟩)]) "", 2⟩, [.stageAll]⟩) ∧
    WorkspaceService.CreateStep (memoryRepository true) ⟨4, false, .written⟩ "A"
        ⟨["seed"], ⟨.json (some [("other", ⟨"other", "O", 3, []⟩)]) "", 2⟩, [.stageAll]⟩ =
      (.error .noActiveWorkspaceHint,
        ⟨["seed"], ⟨.json (some [("other", ⟨"other", "O", 3, []⟩)]) "", 2⟩, [.stageAll]⟩) :=
  no_active_workspace_no_mutation (memoryRepository true) ⟨4, false, .written⟩ "A"
    ⟨["seed"], ⟨.json (some [("other", ⟨"other", "O", 3, []⟩)]) "", 2⟩, [.stageAll]⟩
    ⟨[("other", ⟨"other", "O", 3, []⟩)], ""⟩ rfl rfl

/-! ## Workspace lifecycle: `CreateStep` -/

theorem commitMessages_append (a b : List Call) :
    commitMessages (a ++ b) = commitMessages a ++ commitMessages b := by
  induction a with
  | nil => rfl
  | cons c rest ih => cases c <;> simp [commitMessages, ih]

theorem squashCalls_append (a b : List Call) :
    squashCalls (a ++ b) = squashCalls a ++ squashCalls b := by
  induction a with
  | nil => rfl
  | cons c rest ih => cases c <;> simp [squashCalls, ih]

theorem lastDescription_nil (fallback : GoString) : lastDescription [] fallback = fallback := by
  simp [lastDescription]

theorem lastDescription_append (steps : List Step) (step : Step) (fallback : GoString) :
    lastDescription (steps ++ [step]) fallback = step.Description := by
  simp [lastDescription, List.getElem_append_right]

theorem readMembers_put (ws : List (GoString × WorkspaceMetadata)) (k : GoString)
    (v : WorkspaceMetadata) (hfix : readMembers ws = ws) (hk : k.coerce = k)
    (hv : v.coerce = v) : readMembers (Assoc.put ws k v) = Assoc.put ws k v := by
  have := readMembers_remove ws k hfix
  show readMembers ((k, v) :: Assoc.remove ws k) = _
  simp only [readMembers, List.map_cons] at this ⊢
  rw [this, hk, hv]
  rfl

theorem LoadMetadata_json (workspaces : List (GoString × WorkspaceMetadata))
    (current : GoString) (hfix : readMembers workspaces = workspaces)
    (hcur : current.coerce = current) :
    LoadMetadata (.json (some workspaces) current) =
      .ok { Workspaces := workspaces, CurrentWorkspace := current } := by
  simp [LoadMetadata, hfix, hcur]

/-- A record left alone by the coercion stays so when a coerced step is
appended. -/
theorem WorkspaceMetadata.coerce_append (ws : WorkspaceMetadata) (description commitHash : GoString)
    (now : Nat) (h : ws.coerce = ws) :
    WorkspaceMetadata.coerce
        ⟨ws.Name, ws.Description, ws.CreatedAt,
          ws.Steps ++ [⟨description.coerce, commitHash.coerce, now⟩]⟩ =
      ⟨ws.Name, ws.Description, ws.CreatedAt,
        ws.Steps ++ [⟨description.coerce, commitHash.coerce, now⟩]⟩ := by
  have h1 : ws.Name.coerce = ws.Name := congrArg WorkspaceMetadata.Name h
  have h2 : ws.Description.coerce = ws.Description := congrArg WorkspaceMetadata.Description h
  have h3 : ws.Steps.map Step.coerce = ws.Steps := congrArg WorkspaceMetadata.Steps h
  simp [WorkspaceMetadata.coerce, h1, h2, h3, Step.coerce, coerce_coerce_string]

/-- A successful `CreateStep`: the workspace was recorded, the adapter was
asked to stage and then to commit with the description of the last step (or
of the workspace), and the step was appended by `AddStep`, with its strings
as `encoding/json` stores them. -/
theorem CreateStep_ok {σ : Type} (git : Repository σ) (sys : Sys) (description : GoString)
    (w w1 : World σ) (m : LunaMetadata) (hload : LoadMetadata w.store.file = .ok m)
    (hok : WorkspaceService.CreateStep git sys description w = (.ok (), w1)) :
    ∃ (ws : WorkspaceMetadata) (commitHash : GoString),
      Assoc.get? m.Workspaces m.CurrentWorkspace = some ws ∧
      w1.calls = w.calls ++ [.stageAll, .commit (lastDescription ws.Steps ws.Description)] ∧
      w1.store.file =
        .json (some (Assoc.put m.Workspaces m.CurrentWorkspace
          ⟨ws.Name, ws.Description, ws.CreatedAt,
            ws.Steps ++ [⟨description.coerce, commitHash.coerce, sys.now⟩]⟩))
          m.CurrentWorkspace := by
  unfold WorkspaceService.CreateStep at hok
  simp only [hload] at hok
  by_cases hcur : m.CurrentWorkspace = ""
  · simp [hcur] at hok
  · simp only [hcur, if_false] at hok
    rcases hst : git.StageAll w.repo with ⟨_ | _, r1⟩
    · simp [hst] at hok
    · simp only [hst] at hok
      rcases hco : git.Commit
          (lastDescription
            ((Assoc.get? m.Workspaces m.CurrentWorkspace).getD WorkspaceMetadata.zero).Steps
            ((Assoc.get? m.Workspaces m.CurrentWorkspace).getD WorkspaceMetadata.zero).Description)
          (w.invoked .stageAll r1).repo with ⟨_ | commitHash, r2⟩
      · simp [hco] at hok
      · simp only [hco] at hok
        rcases hadd : MetadataService.AddStep sys description commitHash w.store with ⟨_ | _, s2⟩
        · simp [World.invoked, hadd] at hok
        · have hok1 : (MetadataService.AddStep sys description commitHash w.store).1 = .ok () := by
            rw [hadd]
          obtain ⟨ws, hget, hrun⟩ :=
            storeAddStep_ok sys description commitHash w.store m hload hok1
          rw [hrun] at hadd
          simp only [World.invoked, hrun, Prod.mk.injEq, true_and] at hok
          refine ⟨ws, commitHash, hget, ?_, ?_⟩
          · rw [← hok]
            simp [hget]
          · rw [← hok]

/-- A run of successful `CreateStep` calls from a state whose current
workspace `ws` is recorded, with any steps already in it. -/
theorem createSteps_lag {σ : Type} (git : Repository σ) (steps : List (Sys × GoString)) :
    ∀ (w w1 : World σ) (m : LunaMetadata) (ws : WorkspaceMetadata),
      LoadMetadata w.store.file = .ok m →
      Assoc.get? m.Workspaces m.CurrentWorkspace = some ws →
      createSteps git steps w = some w1 →
      ∃ (added : List Call) (m1 : LunaMetadata) (ws1 : WorkspaceMetadata),
        w1.calls = w.calls ++ added ∧
        commitMessages added =
          (lastDescription ws.Steps ws.Description ::
            steps.map (fun p => p.2.coerce)).dropLast ∧
        LoadMetadata w1.store.file = .ok m1 ∧
        m1.CurrentWorkspace = m.CurrentWorkspace ∧
        Assoc.get? m1.Workspaces m.CurrentWorkspace = some ws1 ∧
        ws1.Description = ws.Description ∧
        ws1.Steps.map (fun st => st.Description) =
          ws.Steps.map (fun st => st.Description) ++ steps.map (fun p => p.2.coerce) := by
  induction steps with
  | nil =>
    intro w w1 m ws hload hws hrun
    simp only [createSteps, Option.some.injEq] at hrun
    subst hrun
    exact ⟨[], m, ws, by simp, by simp [commitMessages], hload, rfl, hws, rfl, by simp⟩
  | cons p rest ih =>
    intro w w1 m ws hload hws hrun
    obtain ⟨sys, description⟩ := p
    rcases hstep : WorkspaceService.CreateStep git sys description w with ⟨_ | _, w2⟩
    · simp [createSteps, hstep] at hrun
    · simp only [createSteps, hstep] at hrun
      obtain ⟨ws0, commitHash, hws0, hcalls, hfile⟩ :=
        CreateStep_ok git sys description w w2 m hload hstep
      rw [hws] at hws0
      cases hws0
      obtain ⟨hfix, hcurfix⟩ := LoadMetadata_coerced _ _ hload
      obtain ⟨_, hwsfix⟩ := LoadMetadata_record_coerced _ _ _ _ hload hws
      have hload2 : LoadMetadata w2.store.file =
          .ok ⟨Assoc.put m.Workspaces m.CurrentWorkspace
                ⟨ws.Name, ws.Description, ws.CreatedAt,
                  ws.Steps ++ [⟨description.coerce, commitHash.coerce, sys.now⟩]⟩,
              m.CurrentWorkspace⟩ := by
        rw [hfile]
        exact LoadMetadata_json _ _
          (readMembers_put _ _ _ hfix hcurfix
            (WorkspaceMetadata.coerce_append ws description commitHash sys.now hwsfix))
          hcurfix
      obtain ⟨added, m1, ws1, hc, hmsg, hl, hcur, hget, hdesc, hsteps⟩ :=
        ih w2 w1 _ _ hload2 (Assoc.get?_put_self _ _ _) hrun
      refine ⟨[.stageAll, .commit (lastDescription ws.Steps ws.Description)] ++ added,
        m1, ws1, ?_, ?_, hl, hcur, hget, hdesc, ?_⟩
      · rw [hc, hcalls, List.append_assoc]
      · rw [commitMessages_append, hmsg, lastDescription_append]
        simp [commitMessages]
      · rw [hsteps]
        simp

/-- Counterexample to C1 as stated: on a workspace with description "D",
`CreateStep` with the description `"a\xffb"`, which is not valid UTF-8, and
then `CreateStep "B"` both succeed; the second commit is made with the message
`"a\ufffdb"`, not with the description of the first step as it was given, and
the first step is recorded with the description `"a\ufffdb"`. -/
theorem CreateStep_invalid_description :
    createSteps (memoryRepository true)
        [(⟨2, false, .written⟩, sampleInvalid), (⟨3, false, .written⟩, "B")]
        ⟨[], ⟨.json (some [("feature", ⟨"feature", "D", 1, []⟩)]) "feature", 0⟩, []⟩ =
      some
        ⟨[GoString.ofString "D", sampleInvalid.coerce],
          ⟨.json (some [("feature", ⟨"feature", "D", 1,
              [⟨sampleInvalid.coerce, "c0ffee", 2⟩, ⟨"B", "c0ffee", 3⟩]⟩)]) "feature", 2⟩,
          [.stageAll, .commit "D", .stageAll, .commit sampleInvalid.coerce]⟩ ∧
    commitMessages [.stageAll, .commit "D", .stageAll, .commit sampleInvalid.coerce] =
      [GoString.ofString "D", sampleInvalid.coerce] ∧
    sampleInvalid.coerce ≠ sampleInvalid :=
  ⟨rfl, rfl, by decide⟩

/-- C1, amended. One-step lag of `CreateStep`. From a state whose current
workspace has description `D` and no steps, after any run of successful
`CreateStep` calls with descriptions `d1 ... dn` the messages passed to
`Commit` during the run are `D, e1, ..., e(n-1)` in that order and the steps
then recorded for the workspace carry the descriptions `e1, ..., en` in call
order, where `ei` is `di` as `encoding/json` stores it: `di` with every byte
that is not valid UTF-8 replaced by U+FFFD. When the descriptions are valid
UTF-8 these are `D, d1, ..., d(n-1)` and `d1, ..., dn`. -/
theorem CreateStep_one_step_lag {σ : Type} (git : Repository σ)
    (steps : List (Sys × GoString)) (w w1 : World σ) (m : LunaMetadata) (ws : WorkspaceMetadata)
    (hload : LoadMetadata w.store.file = .ok m)
    (hws : Assoc.get? m.Workspaces m.CurrentWorkspace = some ws)
    (hempty : ws.Steps = [])
    (hrun : createSteps git steps w = some w1) :
    ∃ (added : List Call) (m1 : LunaMetadata) (ws1 : WorkspaceMetadata),
      w1.calls = w.calls ++ added ∧
      commitMessages added = (ws.Description :: steps.map (fun p => p.2.coerce)).dropLast ∧
      LoadMetadata w1.store.file = .ok m1 ∧
      m1.CurrentWorkspace = m.CurrentWorkspace ∧
      Assoc.get? m1.Workspaces m.CurrentWorkspace = some ws1 ∧
      ws1.Steps.map (fun st => st.Description) = steps.map (fun p => p.2.coerce) ∧
      ((∀ p ∈ steps, p.2.coerce = p.2) →
        commitMessages added = (ws.Description :: steps.map (fun p => p.2)).dropLast ∧
        ws1.Steps.map (fun st => st.Description) = steps.map (fun p => p.2)) := by
  obtain ⟨added, m1, ws1, hc, hmsg, hl, hcur, hget, _, hsteps⟩ :=
    createSteps_lag git steps w w1 m ws hload hws hrun
  rw [hempty] at hmsg hsteps
  have hmsg1 : commitMessages added =
      (ws.Description :: steps.map (fun p => p.2.coerce)).dropLast := by
    simpa [lastDescription_nil] using hmsg
  have hsteps1 : ws1.Steps.map (fun st => st.Description) = steps.map (fun p => p.2.coerce) := by
    simpa using hsteps
  refine ⟨added, m1, ws1, hc, hmsg1, hl, hcur, hget, hsteps1, ?_⟩
  intro hvalid
  have hmap : steps.map (fun p => p.2.coerce) = steps.map (fun p => p.2) :=
    List.map_congr_left (fun p hp => hvalid p hp)
  rw [hmsg1, hsteps1, hmap]
  exact ⟨rfl, rfl⟩

/-- Witness of C1, amended: `CreateStep "A"` then `CreateStep "B"` on a
workspace with description "D" commit with the messages "D" then "A" and
record the steps "A" and "B". -/
theorem CreateStep_one_step_lag_witness :
    ∃ (added : List Call) (m1 : LunaMetadata) (ws1 : WorkspaceMetadata),
      [Call.stageAll, .commit "D", .stageAll, .commit "A"] = [] ++ added ∧
      commitMessages added =
        ((GoString.ofString "D") ::
          [((⟨2, false, .written⟩ : Sys), GoString.ofString "A"),
            (⟨3, false, .written⟩, GoString.ofString "B")].map (fun p => p.2.coerce)).dropLast ∧
      LoadMetadata (MetadataFile.json (some [("feature",
          ⟨"feature", "D", 1, [⟨"A", "c0ffee", 2⟩, ⟨"B", "c0ffee", 3⟩]⟩)]) "feature") = .ok m1 ∧
      m1.CurrentWorkspace = "feature" ∧
      Assoc.get? m1.Workspaces "feature" = some ws1 ∧
      ws1.Steps.map (fun st => st.Description) =
        [((⟨2, false, .written⟩ : Sys), GoString.ofString "A"),
          (⟨3, false, .written⟩, GoString.ofString "B")].map (fun p => p.2.coerce) ∧
      ((∀ p ∈ [((⟨2, false, .written⟩ : Sys), GoString.ofString "A"),
            (⟨3, false, .written⟩, GoString.ofString "B")], p.2.coerce = p.2) →
        commitMessages added =
          ((GoString.ofString "D") ::
            [((⟨2, false, .written⟩ : Sys), GoString.ofString "A"),
              (⟨3, false, .written⟩, GoString.ofString "B")].map (fun p => p.2)).dropLast ∧
        ws1.Steps.map (fun st => st.Description) =
          [((⟨2, false, .written⟩ : Sys), GoString.ofString "A"),
            (⟨3, false, .written⟩, GoString.ofString "B")].map (fun p => p.2)) :=
  CreateStep_one_step_lag (memoryRepository true)
    [(⟨2, false, .written⟩, "A"), (⟨3, false, .written⟩, "B")]
    ⟨[], ⟨.json (some [("feature", ⟨"feature", "D", 1, []⟩)]) "feature", 0⟩, []⟩
    ⟨["D", "A"],
      ⟨.json (some [("feature",
        ⟨"feature", "D", 1, [⟨"A", "c0ffee", 2⟩, ⟨"B", "c0ffee", 3⟩]⟩)]) "feature", 2⟩,
      [.stageAll, .commit "D", .stageAll, .commit "A"]⟩
    ⟨[("feature", ⟨"feature", "D", 1, []⟩)], "feature"⟩ ⟨"feature", "D", 1, []⟩
    rfl (by decide) rfl rfl

/-! ## Workspace lifecycle: `FinishWorkspace` -/

/-- What the pending-changes block leaves behind when it does not return
early: the description is kept, the map differs at most at the current
workspace, the store is untouched, `SquashAndRebase` was not invoked, and
without staged changes no adapter method was invoked at all. -/
theorem commitPending_ok {σ : Type} (git : Repository σ) (sys : Sys) (hasChanges : Bool)
    (currentWorkspace : GoString) (workspace workspace1 : WorkspaceMetadata)
    (metadata metadata1 : LunaMetadata) (w w3 : World σ)
    (hok : WorkspaceService.commitPending git sys hasChanges currentWorkspace workspace metadata w
      = (.ok (workspace1, metadata1), w3)) :
    workspace1.Description = workspace.Description ∧
    Assoc.remove metadata1.Workspaces currentWorkspace =
      Assoc.remove metadata.Workspaces currentWorkspace ∧
    w3.store = w.store ∧
    ∃ added : List Call,
      w3.calls = w.calls ++ added ∧ squashCalls added = [] ∧
      (hasChanges = false → added = [] ∧ w3.repo = w.repo) := by
  unfold WorkspaceService.commitPending at hok
  cases hasChanges with
  | false =>
    simp only [Bool.false_eq_true, if_false, Prod.mk.injEq, Except.ok.injEq] at hok
    obtain ⟨⟨h1, h2⟩, h3⟩ := hok
    subst h1 h2 h3
    exact ⟨rfl, rfl, rfl, [], by simp, rfl, fun _ => ⟨rfl, rfl⟩⟩
  | true =>
    simp only [if_true] at hok
    rcases hco : git.Commit (lastDescription workspace.Steps "Final changes") w.repo
      with ⟨_ | commitHash, r⟩
    · simp [hco] at hok
    · simp only [hco, Prod.mk.injEq, Except.ok.injEq] at hok
      obtain ⟨⟨h1, h2⟩, h3⟩ := hok
      subst h1 h2 h3
      refine ⟨rfl, Assoc.remove_put _ _ _, rfl,
        [.commit (lastDescription workspace.Steps "Final changes")], rfl, rfl, ?_⟩
      intro h
      exact Bool.noConfusion h

/-- The file written by the save that ends `FinishWorkspace`. -/
theorem MetadataFile.overwrite_finish (file : MetadataFile) (m : LunaMetadata) (k : GoString)
    (hload : LoadMetadata file = .ok m) :
    file.overwrite { Workspaces := Assoc.remove m.Workspaces k, CurrentWorkspace := "" } =
      .json (some (Assoc.remove m.Workspaces k)) "" := by
  rw [MetadataFile.overwrite_of_load file m _ hload]
  simp only [writtenMembers_eq_self _
    (readMembers_remove _ k (LoadMetadata_coerced _ _ hload).1), GoString.coerce_ofString]

/-- C7. From a state whose current workspace `ws` is recorded: if
`FinishWorkspace` returns success, then during the call `SquashAndRebase` was
invoked exactly once, with base branch "luna" and the description of `ws` as
message, and the metadata file afterwards holds the mapping of before without
the record of the current workspace and an empty pointer, so that every other
key is bound as before. Moreover, when staging succeeds, no staged changes are
reported, `SquashAndRebase` succeeds and the save succeeds (in particular for
a workspace without steps), the call does return success, having invoked
`StageAll`, `HasStagedChanges` and `SquashAndRebase` and no `Commit`. -/
theorem FinishWorkspace_success {σ : Type} (git : Repository σ) (sys : Sys) (w : World σ)
    (m : LunaMetadata) (ws : WorkspaceMetadata)
    (hload : LoadMetadata w.store.file = .ok m)
    (hcur : m.CurrentWorkspace ≠ "")
    (hws : Assoc.get? m.Workspaces m.CurrentWorkspace = some ws) :
    (∀ w1 : World σ, WorkspaceService.FinishWorkspace git sys w = (.ok (), w1) →
      (∃ added : List Call,
        w1.calls = w.calls ++ added ∧ squashCalls added = ([("luna", ws.Description)] : List (GoString × GoString))) ∧
      w1.store.file = .json (some (Assoc.remove m.Workspaces m.CurrentWorkspace)) "" ∧
      ∃ m1 : LunaMetadata,
        LoadMetadata w1.store.file = .ok m1 ∧ m1.CurrentWorkspace = "" ∧
        Assoc.get? m1.Workspaces m.CurrentWorkspace = none ∧
        ∀ k : GoString, k ≠ m.CurrentWorkspace →
          Assoc.get? m1.Workspaces k = Assoc.get? m.Workspaces k) ∧
    (∀ r1 r2 r3 : σ, git.StageAll w.repo = (.ok (), r1) →
      git.HasStagedChanges r1 = (.ok false, r2) →
      git.SquashAndRebase "luna" ws.Description r2 = (.ok (), r3) →
      sys.mkdirFails = false → sys.write = .written →
      WorkspaceService.FinishWorkspace git sys w =
        (.ok (),
          { repo := r3,
            store := { file := .json (some (Assoc.remove m.Workspaces m.CurrentWorkspace)) "",
                       saves := w.store.saves + 1 },
            calls := w.calls ++
              [.stageAll, .hasStagedChanges, .squashAndRebase "luna" ws.Description] })) := by
  constructor
  · intro w1 hok
    unfold WorkspaceService.FinishWorkspace at hok
    simp only [MetadataService.GetCurrentWorkspace, hload, hcur, if_false, hws] at hok
    rcases hst : git.StageAll w.repo with ⟨_ | _, r1⟩
    · simp [hst] at hok
    · simp only [hst] at hok
      rcases hhs : git.HasStagedChanges (w.invoked .stageAll r1).repo with ⟨_ | hasChanges, r2⟩
      · simp [hhs] at hok
      · simp only [hhs] at hok
        rcases hcp : WorkspaceService.commitPending git sys hasChanges m.CurrentWorkspace ws m
            ((w.invoked .stageAll r1).invoked .hasStagedChanges r2) with ⟨_ | ⟨ws1, m2⟩, w3⟩
        · simp [hcp] at hok
        · simp only [hcp] at hok
          obtain ⟨hdesc, hrem, hstore, added, hcalls, hsq, _⟩ :=
            commitPending_ok git sys hasChanges m.CurrentWorkspace ws ws1 m m2 _ w3 hcp
          rcases hsr : git.SquashAndRebase "luna" ws1.Description w3.repo with ⟨_ | _, r4⟩
          · simp [hsr] at hok
          · simp only [hsr] at hok
            rw [hrem] at hok
            have hst4 : (w3.invoked (.squashAndRebase "luna" ws1.Description) r4).store
                = w.store := hstore
            rw [hst4] at hok
            rcases SaveMetadata_cases sys
                { Workspaces := Assoc.remove m.Workspaces m.CurrentWorkspace,
                  CurrentWorkspace := "" } w.store with ⟨_, _, h⟩ | ⟨e, h⟩ | ⟨e, h⟩
            · rw [h, MetadataFile.overwrite_finish _ _ _ hload] at hok
              simp only [Prod.mk.injEq, true_and] at hok
              have hfile : w1.store.file =
                  .json (some (Assoc.remove m.Workspaces m.CurrentWorkspace)) "" := by
                rw [← hok]
              refine ⟨⟨[.stageAll, .hasStagedChanges] ++ added ++
                  [.squashAndRebase "luna" ws.Description], ?_, ?_⟩, hfile, ?_⟩
              · rw [← hok]
                simp [World.invoked, hcalls, hdesc]
              · simp [squashCalls_append, hsq, squashCalls]
              · rw [hfile, LoadMetadata_json _ _
                  (readMembers_remove _ _ (LoadMetadata_coerced _ _ hload).1)
                  (GoString.coerce_ofString "")]
                exact ⟨_, rfl, rfl, Assoc.get?_remove_self _ _,
                  fun k hk => Assoc.get?_remove_ne _ _ _ hk⟩
            · rw [h] at hok
              simp at hok
            · rw [h] at hok
              simp at hok
  · intro r1 r2 r3 hst hhs hsr hmk hwr
    unfold WorkspaceService.FinishWorkspace
    simp [MetadataService.GetCurrentWorkspace, hload, hcur, hws, hst, World.invoked, hhs,
      WorkspaceService.commitPending, hsr, SaveMetadata_ok _ _ _ hmk hwr,
      MetadataFile.overwrite_finish _ _ _ hload]

/-- Witness of C7: finishing the workspace "feature", which has no steps and
no pending changes, next to a workspace "other"; no commit is made. -/
theorem FinishWorkspace_success_witness :
    WorkspaceService.FinishWorkspace (memoryRepository false) ⟨8, false, .written⟩
        ⟨[], ⟨.json (some [("feature", ⟨"feature", "D", 1, []⟩),
                           ("other", ⟨"other", "O", 3, []⟩)]) "feature", 1⟩, []⟩ =
      (.ok (),
        { repo := [],
          store := { file := .json (some (Assoc.remove
                        [("feature", (⟨"feature", "D", 1, []⟩ : WorkspaceMetadata)),
                         ("other", ⟨"other", "O", 3, []⟩)] "feature")) "",
                     saves := 1 + 1 },
          calls := [] ++ [.stageAll, .hasStagedChanges, .squashAndRebase "luna" "D"] }) :=
  (FinishWorkspace_success (memoryRepository false) ⟨8, false, .written⟩
    ⟨[], ⟨.json (some [("feature", ⟨"feature", "D", 1, []⟩),
                       ("other", ⟨"other", "O", 3, []⟩)]) "feature", 1⟩, []⟩
    ⟨[("feature", ⟨"feature", "D", 1, []⟩), ("other", ⟨"other", "O", 3, []⟩)], "feature"⟩
    ⟨"feature", "D", 1, []⟩ rfl (by decide) (by decide)).2 [] [] [] rfl rfl rfl rfl rfl

/-! ## The metadata invariant -/

theorem Store.wellFormed_congr (s s1 : Store) (h : s1.file = s.file) :
    s1.wellFormed = s.wellFormed := by
  simp [Store.wellFormed, h]

/-- A file that a failing write has cut short cannot be loaded, so it holds
no metadata that could break the invariant. -/
theorem Store.wellFormed_cut (file : MetadataFile) (n : Nat) :
    Store.wellFormed { file := file.cut, saves := n } = true := by
  cases file <;> rfl

/-- The invariant after `SaveMetadata`, whether it succeeds or fails, when
the stored form of the pointer is empty or a key of the written members. -/
theorem SaveMetadata_wellFormed (sys : Sys) (metadata : LunaMetadata) (s : Store)
    (hm : (decide (metadata.CurrentWorkspace.coerce = "") ||
      Assoc.contains (writtenMembers metadata.Workspaces) metadata.CurrentWorkspace.coerce)
        = true)
    (hs : s.wellFormed = true) :
    (SaveMetadata sys metadata s).2.wellFormed = true := by
  rcases SaveMetadata_cases sys metadata s with ⟨_, _, h⟩ | ⟨_, h⟩ | ⟨_, h⟩
  · rw [h]
    cases hf : s.file with
    | unreadable => rfl
    | absent =>
      simpa [Store.wellFormed, MetadataFile.overwrite, LoadMetadata, LunaMetadata.wellFormed,
        readMembers_writtenMembers, coerce_coerce_string] using hm
    | malformed =>
      simpa [Store.wellFormed, MetadataFile.overwrite, LoadMetadata, LunaMetadata.wellFormed,
        readMembers_writtenMembers, coerce_coerce_string] using hm
    | json workspaces current =>
      simpa [Store.wellFormed, MetadataFile.overwrite, LoadMetadata, LunaMetadata.wellFormed,
        readMembers_writtenMembers, coerce_coerce_string] using hm
  · rw [h, Store.wellFormed_congr s ⟨s.file, s.saves + 1⟩ rfl]
    exact hs
  · rw [h]
    exact Store.wellFormed_cut _ _

theorem storeCreateWorkspace_wellFormed (sys : Sys) (name description : GoString) (s : Store)
    (hs : s.wellFormed = true) :
    (MetadataService.CreateWorkspace sys name description s).2.wellFormed = true := by
  unfold MetadataService.CreateWorkspace
  cases hl : LoadMetadata s.file with
  | error e => exact hs
  | ok m =>
    by_cases hc : Assoc.contains m.Workspaces name = true
    · simpa [hc] using hs
    · simp only [hc]
      apply SaveMetadata_wellFormed _ _ _ _ hs
      rw [writtenMembers_put_contains m.Workspaces name _
        (fun p hp => ((readMembers_eq_self _).1 (LoadMetadata_coerced _ _ hl).1 p hp).1)]
      simp

theorem storeAddStep_wellFormed (sys : Sys) (description commitHash : GoString) (s : Store)
    (hs : s.wellFormed = true) :
    (MetadataService.AddStep sys description commitHash s).2.wellFormed = true := by
  unfold MetadataService.AddStep
  cases hl : LoadMetadata s.file with
  | error e => exact hs
  | ok m =>
    dsimp only
    by_cases hcur : m.CurrentWorkspace = ""
    · simpa [hcur] using hs
    · cases hget : Assoc.get? m.Workspaces m.CurrentWorkspace with
      | none => simpa [hcur] using hs
      | some ws =>
        simp only [hcur, if_false]
        apply SaveMetadata_wellFormed _ _ _ _ hs
        rw [writtenMembers_put_contains m.Workspaces m.CurrentWorkspace _
          (fun p hp => ((readMembers_eq_self _).1 (LoadMetadata_coerced _ _ hl).1 p hp).1)]
        simp

/-- The errors of `SaveMetadata` are those of the operating system. -/
theorem SaveMetadata_not_stale (sys : Sys) (metadata : LunaMetadata) (s : Store)
    (name : GoString) :
    (SaveMetadata sys metadata s).1 ≠ .error (.currentWorkspaceNotFound name) := by
  unfold SaveMetadata
  by_cases hmk : sys.mkdirFails = true
  · simp [hmk]
  · cases hwr : sys.write <;> simp [hmk]

/-- An `AddStep` on a store that satisfies the invariant does not end with
"current workspace not found". -/
theorem AddStep_not_stale (sys : Sys) (description commitHash name : GoString) (s : Store)
    (hs : s.wellFormed = true) :
    (MetadataService.AddStep sys description commitHash s).1 ≠
      .error (.currentWorkspaceNotFound name) := by
  unfold MetadataService.AddStep
  cases hl : LoadMetadata s.file with
  | error e => simp
  | ok m =>
    dsimp only
    by_cases hcur : m.CurrentWorkspace = ""
    · simp [hcur]
    · cases hget : Assoc.get? m.Workspaces m.CurrentWorkspace with
      | none =>
        simp [Store.wellFormed, hl, LunaMetadata.wellFormed, hcur, Assoc.contains, hget] at hs
      | some ws =>
        simp only [hcur, if_false]
        exact SaveMetadata_not_stale _ _ _ _

theorem CreateWorkspace_store {σ : Type} (git : Repository σ) (sys : Sys)
    (name description : GoString) (w : World σ) :
    (WorkspaceService.CreateWorkspace git sys name description w).2.store = w.store ∨
    (WorkspaceService.CreateWorkspace git sys name description w).2.store =
      (MetadataService.CreateWorkspace sys name description w.store).2 := by
  unfold WorkspaceService.CreateWorkspace
  rcases h1 : git.IsRepository w.repo with ⟨_ | isRepo, r1⟩
  · left; rfl
  · cases isRepo with
    | false => left; rfl
    | true =>
      simp only [Bool.not_true, Bool.false_eq_true, if_false]
      rcases h2 : git.CreateBranch name "luna" (w.invoked .isRepository r1).repo with ⟨_ | _, r2⟩
      · left; rfl
      · simp only []
        rcases h3 : git.SwitchBranch name
            ((w.invoked .isRepository r1).invoked (.createBranch name "luna") r2).repo
          with ⟨_ | _, r3⟩
        · left; rfl
        · simp only []
          right
          rcases h4 : MetadataService.CreateWorkspace sys name description w.store
            with ⟨_ | _, s⟩ <;> simp [World.invoked, h4]

theorem CreateStep_store {σ : Type} (git : Repository σ) (sys : Sys) (description : GoString)
    (w : World σ) :
    (WorkspaceService.CreateStep git sys description w).2.store = w.store ∨
    ∃ commitHash : GoString,
      (WorkspaceService.CreateStep git sys description w).2.store =
        (MetadataService.AddStep sys description commitHash w.store).2 := by
  unfold WorkspaceService.CreateStep
  cases hl : LoadMetadata w.store.file with
  | error e => left; rfl
  | ok m =>
    by_cases hcur : m.CurrentWorkspace = ""
    · left; simp [hcur]
    · simp only [hcur, if_false]
      rcases h1 : git.StageAll w.repo with ⟨_ | _, r1⟩
      · left; rfl
      · simp only []
        rcases h2 : git.Commit
            (lastDescription
              ((Assoc.get? m.Workspaces m.CurrentWorkspace).getD WorkspaceMetadata.zero).Steps
              ((Assoc.get? m.Workspaces m.CurrentWorkspace).getD
                WorkspaceMetadata.zero).Description)
            (w.invoked .stageAll r1).repo with ⟨_ | commitHash, r2⟩
        · left; rfl
        · simp only []
          right
          refine ⟨commitHash, ?_⟩
          rcases h3 : MetadataService.AddStep sys description commitHash w.store
            with ⟨_ | _, s⟩ <;> simp [World.invoked, h3]

theorem commitPending_store {σ : Type} (git : Repository σ) (sys : Sys) (hasChanges : Bool)
    (currentWorkspace : GoString) (workspace : WorkspaceMetadata) (metadata : LunaMetadata)
    (w : World σ) :
    (WorkspaceService.commitPending git sys hasChanges currentWorkspace workspace metadata w).2.store
      = w.store := by
  unfold WorkspaceService.commitPending
  cases hasChanges with
  | false => rfl
  | true =>
    simp only [if_true]
    rcases hco : git.Commit (lastDescription workspace.Steps "Final changes") w.repo
      with ⟨_ | commitHash, r⟩ <;> rfl

theorem FinishWorkspace_store {σ : Type} (git : Repository σ) (sys : Sys) (w : World σ) :
    (WorkspaceService.FinishWorkspace git sys w).2.store = w.store ∨
    ∃ workspaces : List (GoString × WorkspaceMetadata),
      (WorkspaceService.FinishWorkspace git sys w).2.store =
        (SaveMetadata sys { Workspaces := workspaces, CurrentWorkspace := "" } w.store).2 := by
  unfold WorkspaceService.FinishWorkspace MetadataService.GetCurrentWorkspace
  cases hl : LoadMetadata w.store.file with
  | error e => left; rfl
  | ok m =>
    dsimp only
    by_cases hcur : m.CurrentWorkspace = ""
    · left; simp [hcur]
    · simp only [hcur, if_false]
      cases hget : Assoc.get? m.Workspaces m.CurrentWorkspace with
      | none => left; rfl
      | some ws =>
        dsimp only
        rcases h1 : git.StageAll w.repo with ⟨_ | _, r1⟩
        · left; rfl
        · dsimp only
          rcases h2 : git.HasStagedChanges (w.invoked .stageAll r1).repo with ⟨_ | hasChanges, r2⟩
          · left; rfl
          · dsimp only
            have hst := commitPending_store git sys hasChanges m.CurrentWorkspace ws m
              ((w.invoked .stageAll r1).invoked .hasStagedChanges r2)
            rcases h3 : WorkspaceService.commitPending git sys hasChanges m.CurrentWorkspace ws m
                ((w.invoked .stageAll r1).invoked .hasStagedChanges r2) with ⟨_ | ⟨ws1, m2⟩, w3⟩
            · left
              rw [h3] at hst
              exact hst
            · rw [h3] at hst
              dsimp only at hst ⊢
              rcases h4 : git.SquashAndRebase "luna" ws1.Description w3.repo with ⟨_ | _, r4⟩
              · left; exact hst
              · dsimp only
                right
                refine ⟨Assoc.remove m2.Workspaces m.CurrentWorkspace, ?_⟩
                have hst4 : (w3.invoked (.squashAndRebase "luna" ws1.Description) r4).store
                    = w.store := hst
                rw [hst4]
                rcases h5 : SaveMetadata sys
                    { Workspaces := Assoc.remove m2.Workspaces m.CurrentWorkspace,
                      CurrentWorkspace := "" } w.store with ⟨_ | _, s5⟩ <;> rfl

theorem CreateWorkspace_wellFormed {σ : Type} (git : Repository σ) (sys : Sys)
    (name description : GoString) (w : World σ) (hs : w.store.wellFormed = true) :
    (WorkspaceService.CreateWorkspace git sys name description w).2.store.wellFormed = true := by
  rcases CreateWorkspace_store git sys name description w with h | h
  · rw [h]; exact hs
  · rw [h]; exact storeCreateWorkspace_wellFormed _ _ _ _ hs

theorem CreateStep_wellFormed {σ : Type} (git : Repository σ) (sys : Sys)
    (description : GoString) (w : World σ) (hs : w.store.wellFormed = true) :
    (WorkspaceService.CreateStep git sys description w).2.store.wellFormed = true := by
  rcases CreateStep_store git sys description w with h | ⟨commitHash, h⟩
  · rw [h]; exact hs
  · rw [h]; exact storeAddStep_wellFormed _ _ _ _ hs

theorem FinishWorkspace_wellFormed {σ : Type} (git : Repository σ) (sys : Sys)
    (w : World σ) (hs : w.store.wellFormed = true) :
    (WorkspaceService.FinishWorkspace git sys w).2.store.wellFormed = true := by
  rcases FinishWorkspace_store git sys w with h | ⟨workspaces, h⟩
  · rw [h]; exact hs
  · rw [h]
    exact SaveMetadata_wellFormed _ _ _ (by simp [GoString.coerce_ofString]) hs

theorem Reachable.store_wellFormed {σ : Type} (git : Repository σ) (w : World σ)
    (h : Reachable git w) : w.store.wellFormed = true := by
  induction h with
  | empty r => rfl
  | storeCreateWorkspace w sys name description _ ih =>
    exact storeCreateWorkspace_wellFormed _ _ _ _ ih
  | storeAddStep w sys description commitHash _ ih =>
    exact storeAddStep_wellFormed _ _ _ _ ih
  | createWorkspace w sys name description _ ih =>
    exact CreateWorkspace_wellFormed git _ _ _ _ ih
  | createStep w sys description _ ih => exact CreateStep_wellFormed git _ _ _ ih
  | finishWorkspace w sys _ ih => exact FinishWorkspace_wellFormed git _ _ ih

/-- C8. The invariant "the current-workspace pointer is empty or is a key of
the workspaces mapping" holds for the metadata loaded when no file exists and
is preserved, on the persisted state, by the store's `CreateWorkspace` and
`AddStep` and by the lifecycle's `CreateWorkspace`, `CreateStep` and
`FinishWorkspace`, whatever they return and whatever the operating system does
to the save: the persisted state satisfies the invariant when every metadata
value that `LoadMetadata` returns from the file does, and a save that fails
leaves the former file or a file cut short, from which nothing is loaded.
Consequently, in every state reached from a repository without metadata file
through these operations, `AddStep` does not return the "current workspace
not found" error. -/
theorem metadata_invariant {σ : Type} (git : Repository σ) :
    (∃ m0 : LunaMetadata, LoadMetadata .absent = .ok m0 ∧ m0.wellFormed = true) ∧
    (∀ (sys : Sys) (name description : GoString) (s : Store), s.wellFormed = true →
      (MetadataService.CreateWorkspace sys name description s).2.wellFormed = true) ∧
    (∀ (sys : Sys) (description commitHash : GoString) (s : Store), s.wellFormed = true →
      (MetadataService.AddStep sys description commitHash s).2.wellFormed = true) ∧
    (∀ (sys : Sys) (name description : GoString) (w : World σ), w.store.wellFormed = true →
      (WorkspaceService.CreateWorkspace git sys name description w).2.store.wellFormed = true) ∧
    (∀ (sys : Sys) (description : GoString) (w : World σ), w.store.wellFormed = true →
      (WorkspaceService.CreateStep git sys description w).2.store.wellFormed = true) ∧
    (∀ (sys : Sys) (w : World σ), w.store.wellFormed = true →
      (WorkspaceService.FinishWorkspace git sys w).2.store.wellFormed = true) ∧
    (∀ w : World σ, Reachable git w →
      w.store.wellFormed = true ∧
      ∀ (sys : Sys) (description commitHash name : GoString),
        (MetadataService.AddStep sys description commitHash w.store).1 ≠
          .error (.currentWorkspaceNotFound name)) :=
  ⟨⟨_, rfl, rfl⟩,
    fun sys name description s hs => storeCreateWorkspace_wellFormed sys name description s hs,
    fun sys description commitHash s hs => storeAddStep_wellFormed sys description commitHash s hs,
    fun sys name description w hs => CreateWorkspace_wellFormed git sys name description w hs,
    fun sys description w hs => CreateStep_wellFormed git sys description w hs,
    fun sys w hs => FinishWorkspace_wellFormed git sys w hs,
    fun w hw => ⟨Reachable.store_wellFormed git w hw,
      fun sys description commitHash name =>
        AddStep_not_stale sys description commitHash name w.store (Reachable.store_wellFormed git w hw)⟩⟩

/-- Witness of C8: after creating "feature" and recording step "A" the file
holds the record of "feature" with its step and the pointer "feature"; this
state satisfies the invariant and `AddStep` does not report a stale pointer. -/
theorem metadata_invariant_witness :
    (WorkspaceService.CreateStep (memoryRepository true) ⟨2, false, .written⟩ "A"
      (WorkspaceService.CreateWorkspace (memoryRepository true) ⟨1, false, .written⟩ "feature" "D"
        ⟨[], ⟨.absent, 0⟩, []⟩).2).2.store.file =
      .json (some [("feature", ⟨"feature", "D", 1, [⟨"A", "c0ffee", 2⟩]⟩)]) "feature" ∧
    (WorkspaceService.CreateStep (memoryRepository true) ⟨2, false, .written⟩ "A"
      (WorkspaceService.CreateWorkspace (memoryRepository true) ⟨1, false, .written⟩ "feature" "D"
        ⟨[], ⟨.absent, 0⟩, []⟩).2).2.store.wellFormed = true ∧
    ∀ (sys : Sys) (description commitHash name : GoString),
      (MetadataService.AddStep sys description commitHash
        (WorkspaceService.CreateStep (memoryRepository true) ⟨2, false, .written⟩ "A"
          (WorkspaceService.CreateWorkspace (memoryRepository true) ⟨1, false, .written⟩
            "feature" "D" ⟨[], ⟨.absent, 0⟩, []⟩).2).2.store).1 ≠
        .error (.currentWorkspaceNotFound name) :=
  ⟨rfl, (metadata_invariant (memoryRepository true)).2.2.2.2.2.2 _
    (Reachable.createStep _ ⟨2, false, .written⟩ "A"
      (Reachable.createWorkspace _ ⟨1, false, .written⟩ "feature" "D" (Reachable.empty [])))⟩
/-! ## The git adapter: `SquashAndRebase` -/

namespace Git

/-- The five ways in which lines 303-318 end. -/
theorem moveBranches_cases (e : Engine) (baseBranch currentBranch : GoString) (commitHash : Hash)
    (r : Repo) :
    (∃ err, moveBranches e baseBranch currentBranch commitHash r = (.error err, r)) ∨
    (e.checkout = .failedBeforeHead ∧ ∃ err,
      moveBranches e baseBranch currentBranch commitHash r =
        (.error err,
          { r with refs := Assoc.put r.refs baseBranch commitHash,
                   journal := r.journal ++ [.setReference baseBranch commitHash] })) ∨
    (e.checkout = .failedAfterHead ∧ ∃ err,
      moveBranches e baseBranch currentBranch commitHash r =
        (.error err,
          { r with refs := Assoc.put r.refs baseBranch commitHash,
                   head := .branch baseBranch,
                   journal := r.journal ++ [.setReference baseBranch commitHash] })) ∨
    (e.checkout = .done ∧ ∃ err,
      moveBranches e baseBranch currentBranch commitHash r =
        (.error err,
          { r with refs := Assoc.put r.refs baseBranch commitHash,
                   head := .branch baseBranch,
                   journal := r.journal ++
                     [.setReference baseBranch commitHash, .checkout baseBranch] })) ∨
    (e.checkout = .done ∧
      moveBranches e baseBranch currentBranch commitHash r =
        (.ok (),
          { r with refs := Assoc.remove (Assoc.put r.refs baseBranch commitHash) currentBranch,
                   head := .branch baseBranch,
                   journal := r.journal ++
                     [.setReference baseBranch commitHash, .checkout baseBranch,
                      .removeReference currentBranch] })) := by
  unfold moveBranches
  by_cases h1 : e.fails .setReference = true
  · left; simp [h1]
  · right
    cases hc : e.checkout with
    | failedBeforeHead => left; simp [h1]
    | failedAfterHead => right; left; simp [h1]
    | done =>
      right; right
      by_cases h2 : e.fails .removeReference = true
      · left; simp [h1, h2]
      · right; simp [h1, h2]

/-- Go function `SquashAndRebase` either fails with the repository untouched, or has
resolved the current branch, both tips, the workspace commit and the
signature, stored the squashed commit, and goes on with lines 303-318. -/
theorem SquashAndRebase_cases (e : Engine) (baseBranch commitMessage : GoString) (r : Repo) :
    (∃ err, SquashAndRebase e baseBranch commitMessage r = (.error err, r)) ∨
    ∃ (currentBranch : GoString) (baseHash workspaceHash : Hash) (workspaceCommitObj : Commit)
      (signature : Signature),
      r.head = .branch currentBranch ∧ currentBranch ≠ baseBranch ∧
      Assoc.get? r.refs baseBranch = some baseHash ∧
      Assoc.get? r.refs currentBranch = some workspaceHash ∧
      Assoc.get? r.commits workspaceHash = some workspaceCommitObj ∧
      GetUserSignature e = .ok signature ∧
      SquashAndRebase e baseBranch commitMessage r =
        moveBranches e baseBranch currentBranch
          (e.hashOf (squashedCommit signature commitMessage workspaceCommitObj baseHash))
          { r with
            commits := Assoc.put r.commits
              (e.hashOf (squashedCommit signature commitMessage workspaceCommitObj baseHash))
              (squashedCommit signature commitMessage workspaceCommitObj baseHash),
            journal := r.journal ++
              [.storeObject
                (e.hashOf (squashedCommit signature commitMessage workspaceCommitObj baseHash))] }
    := by
  unfold SquashAndRebase
  by_cases h1 : e.fails .plainOpen = true
  · left; simp [h1]
  by_cases h2 : e.fails .worktree = true
  · left; simp [h1, h2]
  simp only [h1, h2, Bool.false_eq_true, if_false]
  cases hcb : GetCurrentBranch e r with
  | error err => left; exact ⟨_, rfl⟩
  | ok currentBranch =>
    dsimp only
    have hhead : r.head = .branch currentBranch ∧
        ∃ h, Assoc.get? r.refs currentBranch = some h := by
      unfold GetCurrentBranch resolveHead at hcb
      by_cases h3 : e.fails .head = true
      · simp [h1, h3] at hcb
      · cases hh : r.head with
        | detached h => simp [h1, h3, hh] at hcb
        | branch b =>
          cases hb : Assoc.get? r.refs b with
          | none => simp [h1, h3, hh, hb] at hcb
          | some h =>
            simp [h1, h3, hh, hb] at hcb
            subst hcb
            exact ⟨rfl, h, hb⟩
    by_cases h4 : currentBranch = baseBranch
    · left; simp [h4]
    simp only [h4, if_false]
    cases hrb : reference e .referenceBase r baseBranch with
    | error err => left; exact ⟨_, rfl⟩
    | ok baseHash =>
      dsimp only
      cases hrw : reference e .referenceWorkspace r currentBranch with
      | error err => left; exact ⟨_, rfl⟩
      | ok workspaceHash =>
        dsimp only
        cases hco : commitObject e r workspaceHash with
        | error err => left; exact ⟨_, rfl⟩
        | ok workspaceCommitObj =>
          dsimp only
          cases hsig : GetUserSignature e with
          | error err => left; exact ⟨_, rfl⟩
          | ok signature =>
            dsimp only
            by_cases h5 : e.fails .encode = true
            · left; simp [h5]
            by_cases h6 : e.fails .setEncodedObject = true
            · left; simp [h5, h6]
            right
            refine ⟨currentBranch, baseHash, workspaceHash, workspaceCommitObj, signature,
              hhead.1, h4, ?_, ?_, ?_, rfl, by simp [h5, h6]⟩
            · unfold reference at hrb
              by_cases h7 : e.fails .referenceBase = true
              · simp [h7] at hrb
              · cases hb : Assoc.get? r.refs baseBranch with
                | none => simp [h7, hb] at hrb
                | some h => simpa [h7, hb] using hrb
            · unfold reference at hrw
              by_cases h7 : e.fails .referenceWorkspace = true
              · simp [h7] at hrw
              · cases hb : Assoc.get? r.refs currentBranch with
                | none => simp [h7, hb] at hrw
                | some h => simpa [h7, hb] using hrw
            · unfold commitObject at hco
              by_cases h7 : e.fails .commitObject = true
              · simp [h7] at hco
              · cases hb : Assoc.get? r.commits workspaceHash with
                | none => simp [h7, hb] at hco
                | some h => simpa [h7, hb] using hco

theorem firstParentChain_put (commits : List (Hash × Commit)) (newHash : Hash) (c : Commit) :
    ∀ (n : Nat) (h : Hash), newHash ∉ firstParentHashes commits n h →
      firstParentChain (Assoc.put commits newHash c) n h = firstParentChain commits n h := by
  intro n
  induction n with
  | zero => intro h _; rfl
  | succ n ih =>
    intro h hnot
    have hne : h ≠ newHash := by
      intro heq
      apply hnot
      simp [firstParentHashes, heq]
    simp only [firstParentChain, Assoc.get?_put_ne commits newHash h c hne]
    cases hget : Assoc.get? commits h with
    | none => rfl
    | some c0 =>
      cases hp : c0.ParentHashes with
      | nil => simp [hp]
      | cons p rest =>
        have hnot1 : newHash ∉ firstParentHashes commits n p := by
          intro hmem
          apply hnot
          simp [firstParentHashes, hget, hp, hmem]
        simp [hp, ih p hnot1]

/-- C2. Postcondition of `SquashAndRebase`. When `HEAD` is on a branch `W`
other than `baseBranch`, both branches have a reference, the tip of `W` is a
stored commit and no engine primitive fails, the call returns success and
afterwards: the reference of `baseBranch` is the hash of the newly stored
commit, whose tree is the tree of the former tip of `W`, whose only parent is
the former tip of `baseBranch` and whose message is `commitMessage`; the
reference of `W` does not exist; `HEAD` is on `baseBranch`; every other
reference and every other stored object is as before. The first-parent
history of the new tip is the new commit followed by the history of the
former tip, which is the history it had before the call whenever the new hash
does not occur in it: the trunk is exactly one commit longer. -/
theorem SquashAndRebase_postcondition (e : Engine) (baseBranch commitMessage W : GoString)
    (r : Repo) (baseTip workspaceTip : Hash) (workspaceCommit : Commit)
    (hsound : e.sound) (hhead : r.head = .branch W) (hne : W ≠ baseBranch)
    (hbase : Assoc.get? r.refs baseBranch = some baseTip)
    (hws : Assoc.get? r.refs W = some workspaceTip)
    (hobj : Assoc.get? r.commits workspaceTip = some workspaceCommit) :
    (SquashAndRebase e baseBranch commitMessage r).1 = .ok () ∧
    ∃ squashed : Commit,
      squashed.TreeHash = workspaceCommit.TreeHash ∧
      squashed.ParentHashes = [baseTip] ∧
      squashed.Message = commitMessage ∧
      Assoc.get? (SquashAndRebase e baseBranch commitMessage r).2.refs baseBranch =
        some (e.hashOf squashed) ∧
      Assoc.get? (SquashAndRebase e baseBranch commitMessage r).2.commits (e.hashOf squashed) =
        some squashed ∧
      Assoc.get? (SquashAndRebase e baseBranch commitMessage r).2.refs W = none ∧
      (SquashAndRebase e baseBranch commitMessage r).2.head = .branch baseBranch ∧
      (∀ b : GoString, b ≠ baseBranch → b ≠ W →
        Assoc.get? (SquashAndRebase e baseBranch commitMessage r).2.refs b =
          Assoc.get? r.refs b) ∧
      (∀ h : Hash, h ≠ e.hashOf squashed →
        Assoc.get? (SquashAndRebase e baseBranch commitMessage r).2.commits h =
          Assoc.get? r.commits h) ∧
      (∀ n : Nat,
        firstParentChain (SquashAndRebase e baseBranch commitMessage r).2.commits (n + 1)
            (e.hashOf squashed) =
          squashed ::
            firstParentChain (SquashAndRebase e baseBranch commitMessage r).2.commits n baseTip) ∧
      (∀ n : Nat, e.hashOf squashed ∉ firstParentHashes r.commits n baseTip →
        firstParentChain (SquashAndRebase e baseBranch commitMessage r).2.commits (n + 1)
            (e.hashOf squashed) =
          squashed :: firstParentChain r.commits n baseTip) := by
  obtain ⟨hf, hco, hname, hemail⟩ := hsound
  have hrun : SquashAndRebase e baseBranch commitMessage r =
      (.ok (),
        { refs := Assoc.remove
            (Assoc.put r.refs baseBranch
              (e.hashOf (squashedCommit ⟨e.userName, e.userEmail, e.now⟩ commitMessage
                workspaceCommit baseTip))) W,
          commits := Assoc.put r.commits
            (e.hashOf (squashedCommit ⟨e.userName, e.userEmail, e.now⟩ commitMessage
              workspaceCommit baseTip))
            (squashedCommit ⟨e.userName, e.userEmail, e.now⟩ commitMessage workspaceCommit
              baseTip),
          head := .branch baseBranch,
          journal := r.journal ++
            [.storeObject (e.hashOf (squashedCommit ⟨e.userName, e.userEmail, e.now⟩
                commitMessage workspaceCommit baseTip)),
             .setReference baseBranch (e.hashOf (squashedCommit ⟨e.userName, e.userEmail, e.now⟩
                commitMessage workspaceCommit baseTip)),
             .checkout baseBranch, .removeReference W] }) := by
    simp [SquashAndRebase, GetCurrentBranch, resolveHead, reference, commitObject,
      GetUserSignature, moveBranches, hf, hco, hname, hemail, hhead, hne, hbase, hws, hobj]
  rw [hrun]
  have hchain : ∀ n : Nat,
      firstParentChain
          (Assoc.put r.commits
            (e.hashOf (squashedCommit ⟨e.userName, e.userEmail, e.now⟩ commitMessage
              workspaceCommit baseTip))
            (squashedCommit ⟨e.userName, e.userEmail, e.now⟩ commitMessage workspaceCommit
              baseTip)) (n + 1)
          (e.hashOf (squashedCommit ⟨e.userName, e.userEmail, e.now⟩ commitMessage
            workspaceCommit baseTip)) =
        squashedCommit ⟨e.userName, e.userEmail, e.now⟩ commitMessage workspaceCommit baseTip ::
          firstParentChain
            (Assoc.put r.commits
              (e.hashOf (squashedCommit ⟨e.userName, e.userEmail, e.now⟩ commitMessage
                workspaceCommit baseTip))
              (squashedCommit ⟨e.userName, e.userEmail, e.now⟩ commitMessage workspaceCommit
                baseTip)) n baseTip := by
    intro n
    simp [firstParentChain, Assoc.get?_put_self, squashedCommit]
  refine ⟨rfl, squashedCommit ⟨e.userName, e.userEmail, e.now⟩ commitMessage workspaceCommit
    baseTip, rfl, rfl, rfl, ?_, Assoc.get?_put_self _ _ _, Assoc.get?_remove_self _ _, rfl,
    ?_, ?_, hchain, ?_⟩
  · show Assoc.get? (Assoc.remove _ W) baseBranch = _
    rw [Assoc.get?_remove_ne _ _ _ (fun h => hne h.symm), Assoc.get?_put_self]
  · intro b hb hbW
    show Assoc.get? (Assoc.remove _ W) b = _
    rw [Assoc.get?_remove_ne _ _ _ hbW, Assoc.get?_put_ne _ _ _ _ hb]
  · intro h hh
    exact Assoc.get?_put_ne _ _ _ _ hh
  · intro n hfresh
    show firstParentChain (Assoc.put _ _ _) (n + 1) _ = _
    rw [hchain n, firstParentChain_put _ _ _ n baseTip hfresh]

/-- Witness of C2: squashing "feature" onto "luna" in the sample repository
succeeds and leaves "luna" one commit longer, "feature" gone and "luna"
checked out. -/
theorem SquashAndRebase_postcondition_witness :
    (sampleEngine .done).sound ∧
    (SquashAndRebase (sampleEngine .done) "luna" "D" sampleRepo).1 = .ok () ∧
    Assoc.get? (SquashAndRebase (sampleEngine .done) "luna" "D" sampleRepo).2.refs "luna" =
      some "squash" ∧
    Assoc.get? (SquashAndRebase (sampleEngine .done) "luna" "D" sampleRepo).2.commits "squash" =
      some ⟨⟨"Ada", "ada@example.org", 9⟩, ⟨"Ada", "ada@example.org", 9⟩, "D", "t2", ["b0"]⟩ ∧
    Assoc.get? (SquashAndRebase (sampleEngine .done) "luna" "D" sampleRepo).2.refs "feature" =
      none ∧
    (SquashAndRebase (sampleEngine .done) "luna" "D" sampleRepo).2.head = .branch "luna" ∧
    (firstParentChain (SquashAndRebase (sampleEngine .done) "luna" "D" sampleRepo).2.commits 5
      "squash").length = (firstParentChain sampleRepo.commits 5 "b0").length + 1 :=
  ⟨⟨fun _ => rfl, rfl, by decide, by decide⟩,
    (SquashAndRebase_postcondition (sampleEngine .done) "luna" "D" "feature" sampleRepo "b0" "w2"
      ⟨⟨"Ada", "ada@example.org", 3⟩, ⟨"Ada", "ada@example.org", 3⟩, "A", "t2", ["w1"]⟩
      ⟨fun _ => rfl, rfl, by decide, by decide⟩ rfl (by decide) (by decide) (by decide)
      (by decide)).1,
    by decide, by decide, by decide, by decide, by decide⟩

/-- Counterexample to C3 as stated: in the sample repository a checkout that
fails before moving `HEAD` makes `SquashAndRebase` return an error with the
reference of "luna" at the newly stored squash commit while `HEAD` is still on
the workspace branch "feature". -/
theorem SquashAndRebase_checkout_failure_state :
    sampleRepo.head = .branch "feature" ∧
    (SquashAndRebase (sampleEngine .failedBeforeHead) "luna" "D" sampleRepo).1 =
      .error (.wrap "failed to checkout base branch" (.fault "checkout")) ∧
    Assoc.get? (SquashAndRebase (sampleEngine .failedBeforeHead) "luna" "D" sampleRepo).2.refs
      "luna" = some "squash" ∧
    Assoc.get? (SquashAndRebase (sampleEngine .failedBeforeHead) "luna" "D" sampleRepo).2.commits
      "squash" =
      some ⟨⟨"Ada", "ada@example.org", 9⟩, ⟨"Ada", "ada@example.org", 9⟩, "D", "t2", ["b0"]⟩ ∧
    Assoc.get? sampleRepo.commits "squash" = none ∧
    (SquashAndRebase (sampleEngine .failedBeforeHead) "luna" "D" sampleRepo).2.head =
      .branch "feature" :=
  ⟨rfl, rfl, by decide, by decide, by decide, rfl⟩

/-- C3, amended. When `SquashAndRebase` returns an error, one of three holds:
every reference and `HEAD` are as before the call (a step before the reference
update failed); or `HEAD` is on `baseBranch` (the checkout failed after moving
`HEAD`, or the deletion of the workspace branch failed); or the checkout of
`baseBranch` failed before moving `HEAD`, and then the reference of
`baseBranch` has been rewritten to the newly stored squash commit while `HEAD`
is where it was, with no other change to the references. So the reference of
`baseBranch` is at the squash commit with `HEAD` still on the workspace branch
only when the failing step is the checkout. -/
theorem SquashAndRebase_error_states (e : Engine) (baseBranch commitMessage : GoString)
    (r : Repo) (err : Err)
    (herr : (SquashAndRebase e baseBranch commitMessage r).1 = .error err) :
    ((SquashAndRebase e baseBranch commitMessage r).2.refs = r.refs ∧
      (SquashAndRebase e baseBranch commitMessage r).2.head = r.head) ∨
    (SquashAndRebase e baseBranch commitMessage r).2.head = .branch baseBranch ∨
    (e.checkout = .failedBeforeHead ∧
      (SquashAndRebase e baseBranch commitMessage r).2.head = r.head ∧
      ∃ h : Hash,
        (SquashAndRebase e baseBranch commitMessage r).2.refs = Assoc.put r.refs baseBranch h ∧
        (SquashAndRebase e baseBranch commitMessage r).2.journal =
          r.journal ++ [.storeObject h, .setReference baseBranch h]) := by
  rcases SquashAndRebase_cases e baseBranch commitMessage r with
    ⟨err0, h⟩ | ⟨W, baseHash, workspaceHash, wc, sig, _, _, _, _, _, _, h⟩
  · left; rw [h]; exact ⟨rfl, rfl⟩
  · rw [h] at herr ⊢
    rcases moveBranches_cases e baseBranch W (e.hashOf (squashedCommit sig commitMessage wc baseHash))
        { r with
          commits := Assoc.put r.commits
            (e.hashOf (squashedCommit sig commitMessage wc baseHash))
            (squashedCommit sig commitMessage wc baseHash),
          journal := r.journal ++
            [.storeObject (e.hashOf (squashedCommit sig commitMessage wc baseHash))] } with
      ⟨_, h1⟩ | ⟨hc, _, h1⟩ | ⟨_, _, h1⟩ | ⟨_, _, h1⟩ | ⟨_, h1⟩
    · left; rw [h1]; exact ⟨rfl, rfl⟩
    · right; right; rw [h1]
      exact ⟨hc, rfl, _, rfl, by simp⟩
    · right; left; rw [h1]
    · right; left; rw [h1]
    · rw [h1] at herr
      exact Except.noConfusion herr

/-- Witness of C3, amended: the failing checkout of the sample repository. -/
theorem SquashAndRebase_error_states_witness :
    ((SquashAndRebase (sampleEngine .failedBeforeHead) "luna" "D" sampleRepo).2.refs =
        sampleRepo.refs ∧
      (SquashAndRebase (sampleEngine .failedBeforeHead) "luna" "D" sampleRepo).2.head =
        sampleRepo.head) ∨
    (SquashAndRebase (sampleEngine .failedBeforeHead) "luna" "D" sampleRepo).2.head =
      .branch "luna" ∨
    ((sampleEngine .failedBeforeHead).checkout = .failedBeforeHead ∧
      (SquashAndRebase (sampleEngine .failedBeforeHead) "luna" "D" sampleRepo).2.head =
        sampleRepo.head ∧
      ∃ h : Hash,
        (SquashAndRebase (sampleEngine .failedBeforeHead) "luna" "D" sampleRepo).2.refs =
          Assoc.put sampleRepo.refs "luna" h ∧
        (SquashAndRebase (sampleEngine .failedBeforeHead) "luna" "D" sampleRepo).2.journal =
          sampleRepo.journal ++ [.storeObject h, .setReference "luna" h]) :=
  SquashAndRebase_error_states (sampleEngine .failedBeforeHead) "luna" "D" sampleRepo
    (.wrap "failed to checkout base branch" (.fault "checkout")) rfl

/-- C4. When `HEAD` is on a branch `W` that has a reference: if
`SquashAndRebase` returns an error, the reference of `W` is still the tip it
was before the call and no reference was removed. In every run the changes
made are an initial part of: store the squashed commit, set the reference of
`baseBranch` to it, check `baseBranch` out, remove the reference of `W`; so
`W` is removed only after the reference update and the checkout. -/
theorem SquashAndRebase_error_keeps_workspace (e : Engine) (baseBranch commitMessage W : GoString)
    (r : Repo) (tip : Hash) (hhead : r.head = .branch W)
    (hws : Assoc.get? r.refs W = some tip) :
    ∃ (h : Hash) (added : List Effect),
      (SquashAndRebase e baseBranch commitMessage r).2.journal = r.journal ++ added ∧
      added <+: [.storeObject h, .setReference baseBranch h, .checkout baseBranch,
                 .removeReference W] ∧
      ∀ err : Err, (SquashAndRebase e baseBranch commitMessage r).1 = .error err →
        Assoc.get? (SquashAndRebase e baseBranch commitMessage r).2.refs W = some tip ∧
        Effect.removeReference W ∉ added := by
  rcases SquashAndRebase_cases e baseBranch commitMessage r with
    ⟨err0, h⟩ | ⟨W1, baseHash, workspaceHash, wc, sig, hhead1, hne, _, _, _, _, h⟩
  · refine ⟨"", [], ?_, List.nil_prefix, ?_⟩
    · rw [h]; simp
    · intro err _
      rw [h]
      exact ⟨hws, by simp⟩
  · have hW : W1 = W := by
      rw [hhead] at hhead1
      exact (Head.branch.inj hhead1).symm
    subst hW
    have hget : Assoc.get?
        (Assoc.put r.refs baseBranch (e.hashOf (squashedCommit sig commitMessage wc baseHash)))
        W1 = some tip := by
      rw [Assoc.get?_put_ne _ _ _ _ hne, hws]
    rw [h]
    rcases moveBranches_cases e baseBranch W1
        (e.hashOf (squashedCommit sig commitMessage wc baseHash))
        { r with
          commits := Assoc.put r.commits
            (e.hashOf (squashedCommit sig commitMessage wc baseHash))
            (squashedCommit sig commitMessage wc baseHash),
          journal := r.journal ++
            [.storeObject (e.hashOf (squashedCommit sig commitMessage wc baseHash))] } with
      ⟨_, h1⟩ | ⟨_, _, h1⟩ | ⟨_, _, h1⟩ | ⟨_, _, h1⟩ | ⟨_, h1⟩
    · rw [h1]
      exact ⟨e.hashOf (squashedCommit sig commitMessage wc baseHash), [.storeObject _], rfl,
        ⟨_, rfl⟩, fun _ _ => ⟨hws, by simp⟩⟩
    · rw [h1]
      exact ⟨e.hashOf (squashedCommit sig commitMessage wc baseHash),
        [.storeObject _, .setReference baseBranch _], by simp, ⟨_, rfl⟩,
        fun _ _ => ⟨hget, by simp⟩⟩
    · rw [h1]
      exact ⟨e.hashOf (squashedCommit sig commitMessage wc baseHash),
        [.storeObject _, .setReference baseBranch _], by simp, ⟨_, rfl⟩,
        fun _ _ => ⟨hget, by simp⟩⟩
    · rw [h1]
      exact ⟨e.hashOf (squashedCommit sig commitMessage wc baseHash),
        [.storeObject _, .setReference baseBranch _, .checkout baseBranch], by simp, ⟨_, rfl⟩,
        fun _ _ => ⟨hget, by simp⟩⟩
    · rw [h1]
      refine ⟨e.hashOf (squashedCommit sig commitMessage wc baseHash),
        [.storeObject _, .setReference baseBranch _, .checkout baseBranch,
         .removeReference W1], by simp, List.prefix_refl _, ?_⟩
      intro err herr
      exact Except.noConfusion herr

/-- Witness of C4: in the sample repository a checkout that fails after
moving `HEAD` leaves "feature" at its tip "w2". -/
theorem SquashAndRebase_error_keeps_workspace_witness :
    ∃ (h : Hash) (added : List Effect),
      (SquashAndRebase (sampleEngine .failedAfterHead) "luna" "D" sampleRepo).2.journal =
        sampleRepo.journal ++ added ∧
      added <+: [.storeObject h, .setReference "luna" h, .checkout "luna",
                 .removeReference "feature"] ∧
      ∀ err : Err,
        (SquashAndRebase (sampleEngine .failedAfterHead) "luna" "D" sampleRepo).1 = .error err →
        Assoc.get? (SquashAndRebase (sampleEngine .failedAfterHead) "luna" "D" sampleRepo).2.refs
          "feature" = some "w2" ∧
        Effect.removeReference "feature" ∉ added :=
  SquashAndRebase_error_keeps_workspace (sampleEngine .failedAfterHead) "luna" "D" "feature"
    sampleRepo "w2" rfl (by decide)

end Git

/-! ## Metadata store: load and save -/

/-- Counterexample to C11 as stated. (1) On a metadata file that exists but
cannot be read, the save of a value with one workspace succeeds and the load
that follows fails. (2) With no file, the save of a value whose workspace is
named `"a\xffb"` succeeds, and the load that follows returns another value,
with the name `"a\ufffdb"`. (3) With no file, a save of the empty structure
that is cut short fails and leaves a file from which the next load fails. -/
theorem LoadMetadata_SaveMetadata_not_inverse :
    (SaveMetadata ⟨6, false, .written⟩
        ⟨[("feature", ⟨"feature", "D", 1, [⟨"A", "c0ffee", 2⟩]⟩)], "feature"⟩
        ⟨.unreadable, 3⟩ = (.ok (), ⟨.unreadable, 4⟩) ∧
      LoadMetadata (SaveMetadata ⟨6, false, .written⟩
        ⟨[("feature", ⟨"feature", "D", 1, [⟨"A", "c0ffee", 2⟩]⟩)], "feature"⟩
        ⟨.unreadable, 3⟩).2.file =
        .error (.wrap "failed to read metadata file" (.fault "read"))) ∧
    ((SaveMetadata ⟨6, false, .written⟩
        ⟨[(sampleInvalid, ⟨sampleInvalid, "D", 1, []⟩)], sampleInvalid⟩ ⟨.absent, 0⟩).1 = .ok () ∧
      LoadMetadata (SaveMetadata ⟨6, false, .written⟩
        ⟨[(sampleInvalid, ⟨sampleInvalid, "D", 1, []⟩)], sampleInvalid⟩ ⟨.absent, 0⟩).2.file =
        .ok ⟨[(sampleInvalid.coerce, ⟨sampleInvalid.coerce, "D", 1, []⟩)], sampleInvalid.coerce⟩ ∧
      sampleInvalid.coerce ≠ sampleInvalid) ∧
    ((SaveMetadata ⟨6, false, .cutShort⟩ ⟨[], ""⟩ ⟨.absent, 0⟩).1 =
        .error (.wrap "failed to write metadata file" (.fault "write")) ∧
      LoadMetadata (SaveMetadata ⟨6, false, .cutShort⟩ ⟨[], ""⟩ ⟨.absent, 0⟩).2.file =
        .error (.wrap "failed to parse metadata file" (.fault "json"))) :=
  ⟨⟨rfl, rfl⟩, ⟨rfl, rfl, by decide⟩, ⟨rfl, rfl⟩⟩

/-- C11, amended. Load and save. Without a metadata file `LoadMetadata`
returns, without error, the metadata with an empty mapping and an empty
pointer; when the save of that value succeeds, loading again returns it
again. A stored `null` or missing mapping is loaded as the empty mapping.
When the file can be read or does not exist and the save of `m` succeeds,
the load that follows returns `m` as `encoding/json` stores it: every string
with its invalid bytes replaced, and of the records whose keys are stored
alike the one with the greatest key. That value is `m` itself when the
strings of `m` are valid UTF-8. A save that fails leaves the file as it was
or cut short, and a file cut short cannot be loaded. -/
theorem LoadMetadata_SaveMetadata (sys : Sys) (m : LunaMetadata) (s : Store)
    (hmk : sys.mkdirFails = false) (hwr : sys.write = .written)
    (hfile : s.file ≠ .unreadable) :
    LoadMetadata .absent = .ok { Workspaces := [], CurrentWorkspace := "" } ∧
    (∀ (saves : Nat) (m0 : LunaMetadata),
      LoadMetadata .absent = .ok m0 →
      (SaveMetadata sys m0 { file := .absent, saves := saves }).1 = .ok () ∧
      LoadMetadata (SaveMetadata sys m0 { file := .absent, saves := saves }).2.file = .ok m0) ∧
    (∀ current : GoString,
      LoadMetadata (.json none current) =
        .ok { Workspaces := [], CurrentWorkspace := current.coerce }) ∧
    (SaveMetadata sys m s).1 = .ok () ∧
    LoadMetadata (SaveMetadata sys m s).2.file =
      .ok { Workspaces := writtenMembers m.Workspaces,
            CurrentWorkspace := m.CurrentWorkspace.coerce } ∧
    (readMembers m.Workspaces = m.Workspaces → m.CurrentWorkspace.coerce = m.CurrentWorkspace →
      LoadMetadata (SaveMetadata sys m s).2.file = .ok m) ∧
    (∀ (sys0 : Sys) (m0 : LunaMetadata) (s0 : Store),
      (SaveMetadata sys0 m0 s0).1 ≠ .ok () →
      (SaveMetadata sys0 m0 s0).2.file = s0.file ∨
      ((SaveMetadata sys0 m0 s0).2.file = s0.file.cut ∧
        ∀ m1 : LunaMetadata, LoadMetadata (SaveMetadata sys0 m0 s0).2.file ≠ .ok m1)) := by
  have hload : LoadMetadata (SaveMetadata sys m s).2.file =
      .ok { Workspaces := writtenMembers m.Workspaces,
            CurrentWorkspace := m.CurrentWorkspace.coerce } := by
    rw [SaveMetadata_ok sys m s hmk hwr]
    cases hf : s.file with
    | unreadable => exact absurd hf hfile
    | absent =>
      simp [MetadataFile.overwrite, hf, LoadMetadata, readMembers_writtenMembers,
        coerce_coerce_string]
    | malformed =>
      simp [MetadataFile.overwrite, hf, LoadMetadata, readMembers_writtenMembers,
        coerce_coerce_string]
    | json workspaces current =>
      simp [MetadataFile.overwrite, hf, LoadMetadata, readMembers_writtenMembers,
        coerce_coerce_string]
  refine ⟨rfl, ?_, fun _ => rfl, ?_, hload, ?_, ?_⟩
  · intro saves m0 h0
    simp only [LoadMetadata, Except.ok.injEq] at h0
    subst h0
    rw [SaveMetadata_ok sys _ _ hmk hwr]
    exact ⟨rfl, rfl⟩
  · rw [SaveMetadata_ok sys m s hmk hwr]
  · intro hws hcur
    rw [hload, writtenMembers_eq_self _ hws, hcur]
  · intro sys0 m0 s0 hne
    rcases SaveMetadata_cases sys0 m0 s0 with ⟨_, _, h⟩ | ⟨_, h⟩ | ⟨_, h⟩
    · rw [h] at hne
      exact absurd rfl hne
    · left
      rw [h]
    · right
      rw [h]
      exact ⟨rfl, fun m1 => MetadataFile.cut_not_ok _ m1⟩

/-- Witness of C11: a metadata value of valid UTF-8 with one workspace and
one step, saved over a file that records another workspace, is returned by
the load that follows. -/
theorem LoadMetadata_SaveMetadata_witness :
    LoadMetadata (SaveMetadata ⟨6, false, .written⟩
      ⟨[("feature", ⟨"feature", "D", 1, [⟨"A", "c0ffee", 2⟩]⟩)], "feature"⟩
      ⟨.json (some [("other", ⟨"other", "O", 0, []⟩)]) "other", 3⟩).2.file =
      .ok ⟨[("feature", ⟨"feature", "D", 1, [⟨"A", "c0ffee", 2⟩]⟩)], "feature"⟩ :=
  (LoadMetadata_SaveMetadata ⟨6, false, .written⟩
    ⟨[("feature", ⟨"feature", "D", 1, [⟨"A", "c0ffee", 2⟩]⟩)], "feature"⟩
    ⟨.json (some [("other", ⟨"other", "O", 0, []⟩)]) "other", 3⟩ rfl rfl
    (by simp)).2.2.2.2.2.1 rfl rfl
/-! ## Workspace lifecycle: the pending-changes commit -/

theorem lastDescription_of_append (init : List Step) (last : Step) (steps : List Step)
    (fallback : GoString) (h : steps = init ++ [last]) :
    lastDescription steps fallback = last.Description := by
  rw [h, lastDescription_append]

/-- The calls of `FinishWorkspace` once staging and the staged-changes check
have succeeded with report `hasChanges`. -/
theorem FinishWorkspace_calls {σ : Type} (git : Repository σ) (sys : Sys) (w : World σ)
    (m : LunaMetadata) (ws : WorkspaceMetadata) (r1 r2 : σ) (hasChanges : Bool)
    (hload : LoadMetadata w.store.file = .ok m)
    (hcur : m.CurrentWorkspace ≠ "")
    (hws : Assoc.get? m.Workspaces m.CurrentWorkspace = some ws)
    (hst : git.StageAll w.repo = (.ok (), r1))
    (hhs : git.HasStagedChanges r1 = (.ok hasChanges, r2)) :
    ∃ rest : List Call,
      (WorkspaceService.FinishWorkspace git sys w).2.calls =
        w.calls ++ [.stageAll, .hasStagedChanges] ++
          (if hasChanges then [.commit (lastDescription ws.Steps "Final changes")] else []) ++
          rest ∧
      (rest = [] ∨ rest = [.squashAndRebase "luna" ws.Description]) ∧
      (rest = [] →
        hasChanges = true ∧
        ∃ e r3, git.Commit (lastDescription ws.Steps "Final changes") r2 = (.error e, r3)) := by
  unfold WorkspaceService.FinishWorkspace
  simp only [MetadataService.GetCurrentWorkspace, hload, hcur, if_false, hws, hst,
    World.invoked, hhs]
  cases hasChanges with
  | false =>
    refine ⟨[.squashAndRebase "luna" ws.Description], ?_, Or.inr rfl, ?_⟩
    · simp only [WorkspaceService.commitPending, Bool.false_eq_true, if_false]
      rcases hsr : git.SquashAndRebase "luna" ws.Description r2 with ⟨_ | _, r4⟩
      · simp [World.invoked]
      · simp only [World.invoked]
        rcases hsv : SaveMetadata sys
            { Workspaces := Assoc.remove m.Workspaces m.CurrentWorkspace,
              CurrentWorkspace := "" } w.store with ⟨_ | _, s5⟩ <;> simp
    · intro h
      exact absurd h (by simp)
  | true =>
    simp only [WorkspaceService.commitPending, if_true]
    rcases hco : git.Commit (lastDescription ws.Steps "Final changes") r2
      with ⟨e | commitHash, r3⟩
    · refine ⟨[], ?_, Or.inl rfl, fun _ => ⟨trivial, e, r3, rfl⟩⟩
      simp [World.invoked]
    · refine ⟨[.squashAndRebase "luna" ws.Description], ?_, Or.inr rfl, ?_⟩
      · simp only [World.invoked]
        rcases hsr : git.SquashAndRebase "luna" ws.Description r3 with ⟨_ | _, r4⟩
        · simp
        · simp only []
          rcases hsv : SaveMetadata sys
              { Workspaces := Assoc.remove
                  (Assoc.put m.Workspaces m.CurrentWorkspace
                    ⟨ws.Name, ws.Description, ws.CreatedAt,
                      ws.Steps ++ [⟨"Final workspace changes", commitHash, sys.now⟩]⟩)
                  m.CurrentWorkspace,
                CurrentWorkspace := "" } w.store with ⟨_ | _, s5⟩ <;> simp
      · intro h
        exact absurd h (by simp)

/-- C12. The pending-changes commit of `FinishWorkspace`, from a state whose
current workspace `ws` is recorded. The first adapter call is `StageAll`; if
it fails nothing else is invoked. Next comes `HasStagedChanges`; if it fails
nothing else is invoked. If it reports `hasChanges`, then `Commit` is invoked
exactly when `hasChanges` is true, with the description of the last step of
`ws` as message, or "Final changes" when `ws` has no steps; and
`SquashAndRebase` is invoked after it, as the last call, unless that commit
failed. -/
theorem FinishWorkspace_pending_commit {σ : Type} (git : Repository σ) (sys : Sys)
    (w : World σ) (m : LunaMetadata) (ws : WorkspaceMetadata)
    (hload : LoadMetadata w.store.file = .ok m)
    (hcur : m.CurrentWorkspace ≠ "")
    (hws : Assoc.get? m.Workspaces m.CurrentWorkspace = some ws) :
    (∀ (e : Err) (r1 : σ), git.StageAll w.repo = (.error e, r1) →
      (WorkspaceService.FinishWorkspace git sys w).2.calls = w.calls ++ [.stageAll]) ∧
    (∀ (r1 : σ) (e : Err) (r2 : σ), git.StageAll w.repo = (.ok (), r1) →
      git.HasStagedChanges r1 = (.error e, r2) →
      (WorkspaceService.FinishWorkspace git sys w).2.calls =
        w.calls ++ [.stageAll, .hasStagedChanges]) ∧
    (∀ (r1 r2 : σ) (hasChanges : Bool), git.StageAll w.repo = (.ok (), r1) →
      git.HasStagedChanges r1 = (.ok hasChanges, r2) →
      ∃ rest : List Call,
        (WorkspaceService.FinishWorkspace git sys w).2.calls =
          w.calls ++ [.stageAll, .hasStagedChanges] ++
            (if hasChanges then [.commit (lastDescription ws.Steps "Final changes")] else []) ++
            rest ∧
        (rest = [] ∨ rest = [.squashAndRebase "luna" ws.Description]) ∧
        (rest = [] →
          hasChanges = true ∧
          ∃ e r3,
            git.Commit (lastDescription ws.Steps "Final changes") r2 = (.error e, r3))) ∧
    (ws.Steps = [] → lastDescription ws.Steps "Final changes" = "Final changes") ∧
    (∀ (init : List Step) (last : Step), ws.Steps = init ++ [last] →
      lastDescription ws.Steps "Final changes" = last.Description) := by
  refine ⟨?_, ?_, ?_, ?_, ?_⟩
  · intro e r1 hst
    unfold WorkspaceService.FinishWorkspace
    simp [MetadataService.GetCurrentWorkspace, hload, hcur, hws, hst, World.invoked]
  · intro r1 e r2 hst hhs
    unfold WorkspaceService.FinishWorkspace
    simp [MetadataService.GetCurrentWorkspace, hload, hcur, hws, hst, World.invoked, hhs]
  · intro r1 r2 hasChanges hst hhs
    exact FinishWorkspace_calls git sys w m ws r1 r2 hasChanges hload hcur hws hst hhs
  · intro h
    rw [h, lastDescription_nil]
  · intro init last h
    exact lastDescription_of_append init last ws.Steps "Final changes" h

/-- Witness of C12: finishing "feature", whose last step is "B", with staged
changes: the calls are `StageAll`, `HasStagedChanges`, `Commit "B"` and then
`SquashAndRebase "luna" "D"`. -/
theorem FinishWorkspace_pending_commit_witness :
    (WorkspaceService.FinishWorkspace (memoryRepository true) ⟨8, false, .written⟩
        ⟨[], ⟨.json (some [("feature",
            ⟨"feature", "D", 1, [⟨"A", "c0ffee", 2⟩, ⟨"B", "c0ffee", 3⟩]⟩)]) "feature", 3⟩,
          []⟩).2.calls =
      [.stageAll, .hasStagedChanges, .commit "B", .squashAndRebase "luna" "D"] ∧
    ∃ rest : List Call,
      (WorkspaceService.FinishWorkspace (memoryRepository true) ⟨8, false, .written⟩
          ⟨[], ⟨.json (some [("feature",
              ⟨"feature", "D", 1, [⟨"A", "c0ffee", 2⟩, ⟨"B", "c0ffee", 3⟩]⟩)]) "feature", 3⟩,
            []⟩).2.calls =
        [] ++ [.stageAll, .hasStagedChanges] ++
          (if true = true then
            [.commit (lastDescription [⟨"A", "c0ffee", 2⟩, ⟨"B", "c0ffee", 3⟩] "Final changes")]
           else []) ++ rest ∧
      (rest = [] ∨ rest = [.squashAndRebase "luna" "D"]) ∧
      (rest = [] →
        true = true ∧
        ∃ e r3,
          (memoryRepository true).Commit
            (lastDescription [⟨"A", "c0ffee", 2⟩, ⟨"B", "c0ffee", 3⟩] "Final changes") [] =
            (.error e, r3)) :=
  ⟨rfl,
    (FinishWorkspace_pending_commit (memoryRepository true) ⟨8, false, .written⟩
      ⟨[], ⟨.json (some [("feature",
          ⟨"feature", "D", 1, [⟨"A", "c0ffee", 2⟩, ⟨"B", "c0ffee", 3⟩]⟩)]) "feature", 3⟩, []⟩
      ⟨[("feature", ⟨"feature", "D", 1, [⟨"A", "c0ffee", 2⟩, ⟨"B", "c0ffee", 3⟩]⟩)], "feature"⟩
      ⟨"feature", "D", 1, [⟨"A", "c0ffee", 2⟩, ⟨"B", "c0ffee", 3⟩]⟩
      rfl (by decide) (by decide)).2.2.1 [] [] true rfl rfl⟩

/-! ## Workspace lifecycle on the git adapter: `CreateWorkspace` of a recorded name -/

/-- The run of `CreateWorkspace` on the git adapter for a name that the
metadata already records, with trunk "luna" present, no reference in the way
of the branch and no failing primitive. -/
theorem CreateWorkspace_recorded_run (e : Git.Engine) (wt : Git.WorktreeOps) (sys : Sys)
    (name description : GoString) (w : World Git.Repo) (m : LunaMetadata)
    (ws : WorkspaceMetadata) (lunaTip : Git.Hash)
    (hf : ∀ p, e.fails p = false) (hco : e.checkout = .done)
    (hfree : w.repo.refs.any (fun p => Git.refConflict p.1 name) = false)
    (hload : LoadMetadata w.store.file = .ok m)
    (hkey : Assoc.get? m.Workspaces name = some ws)
    (hluna : Assoc.get? w.repo.refs "luna" = some lunaTip) :
    WorkspaceService.CreateWorkspace (Git.gitRepository e .present wt) sys name description w =
      (.error (.wrap "failed to create workspace metadata" (.workspaceExists name)),
        { repo :=
            { refs := Assoc.put w.repo.refs name lunaTip,
              commits := w.repo.commits,
              head := .branch name,
              journal := w.repo.journal ++ [.setReference name lunaTip, .checkout name] },
          store := w.store,
          calls := w.calls ++
            [.isRepository, .createBranch name "luna", .switchBranch name] }) := by
  simp [WorkspaceService.CreateWorkspace, Git.gitRepository, Git.IsRepository, Git.CreateBranch,
    Git.reference, Git.SwitchBranch, World.invoked, hf, hco, hluna, hfree, Assoc.get?_put_self,
    MetadataService.CreateWorkspace, hload, Assoc.contains_eq_true _ _ _ hkey]

/-- The run of `CreateWorkspace` on the git adapter when the checkout of the
new branch fails: the reference has been written, the name is not looked up
in the metadata. -/
theorem CreateWorkspace_checkout_fails_run (e : Git.Engine) (wt : Git.WorktreeOps) (sys : Sys)
    (name description : GoString) (w : World Git.Repo) (lunaTip : Git.Hash)
    (hf : ∀ p, e.fails p = false) (hco : e.checkout ≠ .done)
    (hfree : w.repo.refs.any (fun p => Git.refConflict p.1 name) = false)
    (hluna : Assoc.get? w.repo.refs "luna" = some lunaTip) :
    (WorkspaceService.CreateWorkspace (Git.gitRepository e .present wt) sys name description
      w).1 = .error (.wrap "failed to switch to workspace"
        (.wrap "failed to checkout branch" (.fault "checkout"))) ∧
    (WorkspaceService.CreateWorkspace (Git.gitRepository e .present wt) sys name description
      w).2.store = w.store ∧
    (WorkspaceService.CreateWorkspace (Git.gitRepository e .present wt) sys name description
      w).2.repo.refs = Assoc.put w.repo.refs name lunaTip := by
  cases hc : e.checkout with
  | done => exact absurd hc hco
  | failedBeforeHead =>
    simp [WorkspaceService.CreateWorkspace, Git.gitRepository, Git.IsRepository,
      Git.CreateBranch, Git.reference, Git.SwitchBranch, World.invoked, hf, hc, hluna, hfree,
      Assoc.get?_put_self]
  | failedAfterHead =>
    simp [WorkspaceService.CreateWorkspace, Git.gitRepository, Git.IsRepository,
      Git.CreateBranch, Git.reference, Git.SwitchBranch, World.invoked, hf, hc, hluna, hfree,
      Assoc.get?_put_self]

/-- The run of `CreateWorkspace` on the git adapter when an existing
reference stands in the way of the branch: nothing is changed. -/
theorem CreateWorkspace_conflict_run (e : Git.Engine) (wt : Git.WorktreeOps) (sys : Sys)
    (name description : GoString) (w : World Git.Repo) (lunaTip : Git.Hash)
    (hf : ∀ p, e.fails p = false)
    (hbusy : w.repo.refs.any (fun p => Git.refConflict p.1 name) = true)
    (hluna : Assoc.get? w.repo.refs "luna" = some lunaTip) :
    WorkspaceService.CreateWorkspace (Git.gitRepository e .present wt) sys name description w =
      (.error (.wrap "failed to create workspace branch"
          (.wrap "failed to create branch" (.fault "reference name conflict"))),
        { repo := w.repo, store := w.store,
          calls := w.calls ++ [.isRepository, .createBranch name "luna"] }) := by
  simp [WorkspaceService.CreateWorkspace, Git.gitRepository, Git.IsRepository, Git.CreateBranch,
    Git.reference, World.invoked, hf, hluna, hbusy]

/-- Counterexample to C13 as stated. The metadata records "feature" and trunk
"luna" exists, yet `CreateWorkspace "feature"` does not return the "already
exists" error: (1) when the checkout fails after moving `HEAD`, as it does on
a working tree with changes, the call returns "failed to switch to
workspace", having moved branch "feature" from "w2" to "b0"; (2) when the
recorded name is "feature/x", the reference "feature" stands in the way and the call
returns "failed to create workspace branch" with the repository unchanged. -/
theorem CreateWorkspace_recorded_name_other_error :
    (WorkspaceService.CreateWorkspace (Git.gitRepository (Git.sampleEngine .failedAfterHead)
        .present Git.cleanWorktree) ⟨7, false, .written⟩ "feature" "again"
        ⟨Git.sampleRepo, ⟨.json (some [("feature", ⟨"feature", "D", 1, []⟩)]) "feature", 1⟩, []⟩ =
      (.error (.wrap "failed to switch to workspace"
          (.wrap "failed to checkout branch" (.fault "checkout"))),
        { repo :=
            { refs := Assoc.put Git.sampleRepo.refs "feature" "b0",
              commits := Git.sampleRepo.commits,
              head := .branch "feature",
              journal := Git.sampleRepo.journal ++ [.setReference "feature" "b0"] },
          store := ⟨.json (some [("feature", ⟨"feature", "D", 1, []⟩)]) "feature", 1⟩,
          calls := [.isRepository, .createBranch "feature" "luna", .switchBranch "feature"] })) ∧
    (WorkspaceService.CreateWorkspace (Git.gitRepository (Git.sampleEngine .done)
        .present Git.cleanWorktree) ⟨7, false, .written⟩ "feature/x" "again"
        ⟨Git.sampleRepo, ⟨.json (some [("feature/x", ⟨"feature/x", "D", 1, []⟩)]) "", 1⟩, []⟩ =
      (.error (.wrap "failed to create workspace branch"
          (.wrap "failed to create branch" (.fault "reference name conflict"))),
        { repo := Git.sampleRepo,
          store := ⟨.json (some [("feature/x", ⟨"feature/x", "D", 1, []⟩)]) "", 1⟩,
          calls := [.isRepository, .createBranch "feature/x" "luna"] })) :=
  ⟨rfl, rfl⟩

/-- C13, amended. The lifecycle `CreateWorkspace` on the git adapter checks
the name only after it has changed the repository. Let `name` be recorded in
the metadata and trunk "luna" have a reference. When the repository can be
opened, no existing reference stands in the way of branch `name` (neither is
the other followed by a slash and more) and no engine primitive fails, the
checkout included, the call returns the "already exists" error (wrapped as a
metadata failure) and leaves the metadata store as it was; but it has invoked
`CreateBranch` and `SwitchBranch`, the reference of branch `name` is now the
tip of "luna" whatever it was before, and `HEAD` is on `name`; every other
reference and the stored objects are as before, so a former tip of `name`
other than the tip of "luna" is no longer what `name` refers to. When instead
only the checkout fails, the call returns "failed to switch to workspace"
with the metadata store as it was and the reference of `name` rewritten all
the same; and when a reference stands in the way, it returns "failed to
create workspace branch" and has changed neither repository nor metadata. -/
theorem CreateWorkspace_recorded_name_moves_branch (e : Git.Engine) (wt : Git.WorktreeOps)
    (sys : Sys) (name description : GoString) (w : World Git.Repo) (m : LunaMetadata)
    (ws : WorkspaceMetadata) (lunaTip : Git.Hash)
    (hf : ∀ p, e.fails p = false)
    (hload : LoadMetadata w.store.file = .ok m)
    (hkey : Assoc.get? m.Workspaces name = some ws)
    (hluna : Assoc.get? w.repo.refs "luna" = some lunaTip) :
    (e.checkout = .done → w.repo.refs.any (fun p => Git.refConflict p.1 name) = false →
      (WorkspaceService.CreateWorkspace (Git.gitRepository e .present wt) sys name description
        w).1 = .error (.wrap "failed to create workspace metadata" (.workspaceExists name)) ∧
      (WorkspaceService.CreateWorkspace (Git.gitRepository e .present wt) sys name description
        w).2.store = w.store ∧
      (WorkspaceService.CreateWorkspace (Git.gitRepository e .present wt) sys name description
        w).2.calls = w.calls ++ [.isRepository, .createBranch name "luna", .switchBranch name] ∧
      (WorkspaceService.CreateWorkspace (Git.gitRepository e .present wt) sys name description
        w).2.repo.journal = w.repo.journal ++ [.setReference name lunaTip, .checkout name] ∧
      Assoc.get? (WorkspaceService.CreateWorkspace (Git.gitRepository e .present wt) sys name
        description w).2.repo.refs name = some lunaTip ∧
      (WorkspaceService.CreateWorkspace (Git.gitRepository e .present wt) sys name description
        w).2.repo.head = .branch name ∧
      (∀ b : GoString, b ≠ name →
        Assoc.get? (WorkspaceService.CreateWorkspace (Git.gitRepository e .present wt) sys name
          description w).2.repo.refs b = Assoc.get? w.repo.refs b) ∧
      (WorkspaceService.CreateWorkspace (Git.gitRepository e .present wt) sys name description
        w).2.repo.commits = w.repo.commits ∧
      (∀ oldTip : Git.Hash, Assoc.get? w.repo.refs name = some oldTip → oldTip ≠ lunaTip →
        Assoc.get? (WorkspaceService.CreateWorkspace (Git.gitRepository e .present wt) sys name
          description w).2.repo.refs name ≠ some oldTip)) ∧
    (e.checkout ≠ .done → w.repo.refs.any (fun p => Git.refConflict p.1 name) = false →
      (WorkspaceService.CreateWorkspace (Git.gitRepository e .present wt) sys name description
        w).1 = .error (.wrap "failed to switch to workspace"
          (.wrap "failed to checkout branch" (.fault "checkout"))) ∧
      (WorkspaceService.CreateWorkspace (Git.gitRepository e .present wt) sys name description
        w).2.store = w.store ∧
      Assoc.get? (WorkspaceService.CreateWorkspace (Git.gitRepository e .present wt) sys name
        description w).2.repo.refs name = some lunaTip) ∧
    (w.repo.refs.any (fun p => Git.refConflict p.1 name) = true →
      (WorkspaceService.CreateWorkspace (Git.gitRepository e .present wt) sys name description
        w).1 = .error (.wrap "failed to create workspace branch"
          (.wrap "failed to create branch" (.fault "reference name conflict"))) ∧
      (WorkspaceService.CreateWorkspace (Git.gitRepository e .present wt) sys name description
        w).2.store = w.store ∧
      (WorkspaceService.CreateWorkspace (Git.gitRepository e .present wt) sys name description
        w).2.repo = w.repo) := by
  refine ⟨?_, ?_, ?_⟩
  · intro hco hfree
    rw [CreateWorkspace_recorded_run e wt sys name description w m ws lunaTip hf hco hfree hload
      hkey hluna]
    refine ⟨rfl, rfl, rfl, rfl, Assoc.get?_put_self _ _ _, rfl, ?_, rfl, ?_⟩
    · intro b hb
      exact Assoc.get?_put_ne _ _ _ _ hb
    · intro oldTip _ hne hget
      have h : Assoc.get? (Assoc.put w.repo.refs name lunaTip) name = some lunaTip :=
        Assoc.get?_put_self _ _ _
      have h2 : Assoc.get? (Assoc.put w.repo.refs name lunaTip) name = some oldTip := hget
      rw [h] at h2
      exact hne (Option.some.inj h2).symm
  · intro hco hfree
    obtain ⟨h1, h2, h3⟩ :=
      CreateWorkspace_checkout_fails_run e wt sys name description w lunaTip hf hco hfree hluna
    refine ⟨h1, h2, ?_⟩
    rw [h3]
    exact Assoc.get?_put_self _ _ _
  · intro hbusy
    rw [CreateWorkspace_conflict_run e wt sys name description w lunaTip hf hbusy hluna]
    exact ⟨rfl, rfl, rfl⟩

/-- Witness of C13: in the sample repository, whose metadata records
"feature", a second `CreateWorkspace "feature"` fails with "already exists"
after moving branch "feature" from its tip "w2" to "b0", the tip of "luna". -/
theorem CreateWorkspace_recorded_name_moves_branch_witness :
    Assoc.get? Git.sampleRepo.refs "feature" = some "w2" ∧
    WorkspaceService.CreateWorkspace (Git.gitRepository (Git.sampleEngine .done) .present
        Git.cleanWorktree) ⟨7, false, .written⟩ "feature" "again"
        ⟨Git.sampleRepo, ⟨.json (some [("feature", ⟨"feature", "D", 1, []⟩)]) "feature", 1⟩, []⟩ =
      (.error (.wrap "failed to create workspace metadata" (.workspaceExists "feature")),
        { repo :=
            { refs := Assoc.put Git.sampleRepo.refs "feature" "b0",
              commits := Git.sampleRepo.commits,
              head := .branch "feature",
              journal := Git.sampleRepo.journal ++
                [.setReference "feature" "b0", .checkout "feature"] },
          store := ⟨.json (some [("feature", ⟨"feature", "D", 1, []⟩)]) "feature", 1⟩,
          calls := [] ++ [.isRepository, .createBranch "feature" "luna",
            .switchBranch "feature"] }) ∧
    Assoc.get? (WorkspaceService.CreateWorkspace (Git.gitRepository (Git.sampleEngine .done)
        .present Git.cleanWorktree) ⟨7, false, .written⟩ "feature" "again"
        ⟨Git.sampleRepo, ⟨.json (some [("feature", ⟨"feature", "D", 1, []⟩)]) "feature", 1⟩,
          []⟩).2.repo.refs "feature" = some "b0" :=
  ⟨by decide, rfl,
    ((CreateWorkspace_recorded_name_moves_branch (Git.sampleEngine .done) Git.cleanWorktree
      ⟨7, false, .written⟩ "feature" "again"
      ⟨Git.sampleRepo, ⟨.json (some [("feature", ⟨"feature", "D", 1, []⟩)]) "feature", 1⟩, []⟩
      ⟨[("feature", ⟨"feature", "D", 1, []⟩)], "feature"⟩ ⟨"feature", "D", 1, []⟩ "b0"
      (fun _ => rfl) rfl (by decide) (by decide)).1 rfl (by decide)).2.2.2.2.1⟩
/-! ## Workspace lifecycle: `FinishWorkspace` writes metadata last -/

/-- The metadata file after `FinishWorkspace` is the file of before, or the
mapping of before without the current workspace and an empty pointer, or the
file of before cut short by a failing write. -/
theorem FinishWorkspace_file {σ : Type} (git : Repository σ) (sys : Sys) (w : World σ)
    (m : LunaMetadata) (ws : WorkspaceMetadata)
    (hload : LoadMetadata w.store.file = .ok m)
    (hcur : m.CurrentWorkspace ≠ "")
    (hws : Assoc.get? m.Workspaces m.CurrentWorkspace = some ws) :
    (WorkspaceService.FinishWorkspace git sys w).2.store.file = w.store.file ∨
    (WorkspaceService.FinishWorkspace git sys w).2.store.file =
      .json (some (Assoc.remove m.Workspaces m.CurrentWorkspace)) "" ∨
    (WorkspaceService.FinishWorkspace git sys w).2.store.file = w.store.file.cut := by
  unfold WorkspaceService.FinishWorkspace
  simp only [MetadataService.GetCurrentWorkspace, hload, hcur, if_false, hws]
  rcases hst : git.StageAll w.repo with ⟨_ | _, r1⟩
  · left; rfl
  · dsimp only
    rcases hhs : git.HasStagedChanges (w.invoked .stageAll r1).repo with ⟨_ | hasChanges, r2⟩
    · left; rfl
    · dsimp only
      have hstore := commitPending_store git sys hasChanges m.CurrentWorkspace ws m
        ((w.invoked .stageAll r1).invoked .hasStagedChanges r2)
      rcases hcp : WorkspaceService.commitPending git sys hasChanges m.CurrentWorkspace ws m
          ((w.invoked .stageAll r1).invoked .hasStagedChanges r2) with ⟨_ | ⟨ws1, m2⟩, w3⟩
      · left
        rw [hcp] at hstore
        exact congrArg Store.file hstore
      · obtain ⟨_, hrem, hst3, _⟩ :=
          commitPending_ok git sys hasChanges m.CurrentWorkspace ws ws1 m m2 _ w3 hcp
        dsimp only
        rcases hsr : git.SquashAndRebase "luna" ws1.Description w3.repo with ⟨_ | _, r4⟩
        · left
          exact congrArg Store.file hst3
        · dsimp only
          have hst4 : (w3.invoked (.squashAndRebase "luna" ws1.Description) r4).store = w.store :=
            hst3
          rw [hst4, hrem]
          rcases SaveMetadata_cases sys
              { Workspaces := Assoc.remove m.Workspaces m.CurrentWorkspace,
                CurrentWorkspace := "" } w.store with ⟨_, _, h2⟩ | ⟨_, h2⟩ | ⟨_, h2⟩
          · right; left
            rw [h2]
            exact MetadataFile.overwrite_finish _ _ _ hload
          · left
            rw [h2]
          · right; right
            rw [h2]

/-- C14. `FinishWorkspace` writes metadata only as its last step. From a
state whose current workspace `ws` is recorded: when `StageAll`,
`HasStagedChanges`, the pending-changes `Commit` or `SquashAndRebase` fails,
the call returns the wrapped error and the metadata store is the one of before
(the file is the same and `SaveMetadata` was not called), also when the
pending-changes commit had already been made. On every path the file
afterwards is the file of before, or the mapping of before without the current
workspace, or the file of before cut short by a failing write, from which
nothing is loaded; so every record it holds was bound to the same key before
the call: the final step "Final workspace changes" is never persisted. -/
theorem FinishWorkspace_writes_last {σ : Type} (git : Repository σ) (sys : Sys)
    (w : World σ) (m : LunaMetadata) (ws : WorkspaceMetadata)
    (hload : LoadMetadata w.store.file = .ok m)
    (hcur : m.CurrentWorkspace ≠ "")
    (hws : Assoc.get? m.Workspaces m.CurrentWorkspace = some ws) :
    (∀ (e : Err) (r1 : σ), git.StageAll w.repo = (.error e, r1) →
      WorkspaceService.FinishWorkspace git sys w =
        (.error (.wrap "failed to stage pending changes" e),
          { repo := r1, store := w.store, calls := w.calls ++ [.stageAll] })) ∧
    (∀ (r1 : σ) (e : Err) (r2 : σ), git.StageAll w.repo = (.ok (), r1) →
      git.HasStagedChanges r1 = (.error e, r2) →
      WorkspaceService.FinishWorkspace git sys w =
        (.error (.wrap "failed to check for staged changes" e),
          { repo := r2, store := w.store,
            calls := w.calls ++ [.stageAll, .hasStagedChanges] })) ∧
    (∀ (r1 r2 : σ) (e : Err) (r3 : σ), git.StageAll w.repo = (.ok (), r1) →
      git.HasStagedChanges r1 = (.ok true, r2) →
      git.Commit (lastDescription ws.Steps "Final changes") r2 = (.error e, r3) →
      WorkspaceService.FinishWorkspace git sys w =
        (.error (.wrap "failed to commit pending changes" e),
          { repo := r3, store := w.store,
            calls := w.calls ++ [.stageAll, .hasStagedChanges,
              .commit (lastDescription ws.Steps "Final changes")] })) ∧
    (∀ (r1 r2 : σ) (e : Err) (r4 : σ), git.StageAll w.repo = (.ok (), r1) →
      git.HasStagedChanges r1 = (.ok false, r2) →
      git.SquashAndRebase "luna" ws.Description r2 = (.error e, r4) →
      WorkspaceService.FinishWorkspace git sys w =
        (.error (.wrap "failed to squash and rebase workspace" e),
          { repo := r4, store := w.store,
            calls := w.calls ++ [.stageAll, .hasStagedChanges,
              .squashAndRebase "luna" ws.Description] })) ∧
    (∀ (r1 r2 : σ) (commitHash : GoString) (r3 : σ) (e : Err) (r4 : σ),
      git.StageAll w.repo = (.ok (), r1) →
      git.HasStagedChanges r1 = (.ok true, r2) →
      git.Commit (lastDescription ws.Steps "Final changes") r2 = (.ok commitHash, r3) →
      git.SquashAndRebase "luna" ws.Description r3 = (.error e, r4) →
      WorkspaceService.FinishWorkspace git sys w =
        (.error (.wrap "failed to squash and rebase workspace" e),
          { repo := r4, store := w.store,
            calls := w.calls ++ [.stageAll, .hasStagedChanges,
              .commit (lastDescription ws.Steps "Final changes"),
              .squashAndRebase "luna" ws.Description] })) ∧
    ((WorkspaceService.FinishWorkspace git sys w).2.store.file = w.store.file ∨
      (WorkspaceService.FinishWorkspace git sys w).2.store.file =
        .json (some (Assoc.remove m.Workspaces m.CurrentWorkspace)) "" ∨
      (WorkspaceService.FinishWorkspace git sys w).2.store.file = w.store.file.cut) ∧
    (∀ (m1 : LunaMetadata) (k : GoString) (ws1 : WorkspaceMetadata),
      LoadMetadata (WorkspaceService.FinishWorkspace git sys w).2.store.file = .ok m1 →
      Assoc.get? m1.Workspaces k = some ws1 → Assoc.get? m.Workspaces k = some ws1) := by
  refine ⟨?_, ?_, ?_, ?_, ?_, FinishWorkspace_file git sys w m ws hload hcur hws, ?_⟩
  · intro e r1 hst
    unfold WorkspaceService.FinishWorkspace
    simp [MetadataService.GetCurrentWorkspace, hload, hcur, hws, hst, World.invoked]
  · intro r1 e r2 hst hhs
    unfold WorkspaceService.FinishWorkspace
    simp [MetadataService.GetCurrentWorkspace, hload, hcur, hws, hst, World.invoked, hhs]
  · intro r1 r2 e r3 hst hhs hco
    unfold WorkspaceService.FinishWorkspace
    simp [MetadataService.GetCurrentWorkspace, hload, hcur, hws, hst, World.invoked, hhs,
      WorkspaceService.commitPending, hco]
  · intro r1 r2 e r4 hst hhs hsr
    unfold WorkspaceService.FinishWorkspace
    simp [MetadataService.GetCurrentWorkspace, hload, hcur, hws, hst, World.invoked, hhs,
      WorkspaceService.commitPending, hsr]
  · intro r1 r2 commitHash r3 e r4 hst hhs hco hsr
    unfold WorkspaceService.FinishWorkspace
    simp [MetadataService.GetCurrentWorkspace, hload, hcur, hws, hst, World.invoked, hhs,
      WorkspaceService.commitPending, hco, hsr]
  · intro m1 k ws1 hl hk
    rcases FinishWorkspace_file git sys w m ws hload hcur hws with h | h | h
    · rw [h, hload] at hl
      cases hl
      exact hk
    · rw [h, LoadMetadata_json _ _
        (readMembers_remove _ _ (LoadMetadata_coerced _ _ hload).1)
        (GoString.coerce_ofString "")] at hl
      simp only [Except.ok.injEq] at hl
      subst hl
      by_cases hkc : k = m.CurrentWorkspace
      · rw [hkc, Assoc.get?_remove_self] at hk
        exact Option.noConfusion hk
      · rw [Assoc.get?_remove_ne _ _ _ hkc] at hk
        exact hk
    · rw [h] at hl
      exact absurd hl (MetadataFile.cut_not_ok _ _)

/-- Witness of C14: finishing "feature" with staged changes on an adapter
whose `SquashAndRebase` fails: the pending changes are committed with the
message "A", the call fails, and the metadata store is the one of before. -/
theorem FinishWorkspace_writes_last_witness :
    WorkspaceService.FinishWorkspace (memoryRepositoryOnBase true) ⟨8, false, .written⟩
        ⟨[], ⟨.json (some [("feature", ⟨"feature", "D", 1, [⟨"A", "c0ffee", 2⟩]⟩)]) "feature", 2⟩,
          []⟩ =
      (.error (.wrap "failed to squash and rebase workspace" (.alreadyOnBase "luna")),
        { repo := ["A"],
          store := ⟨.json (some [("feature", ⟨"feature", "D", 1, [⟨"A", "c0ffee", 2⟩]⟩)])
            "feature", 2⟩,
          calls := [] ++ [.stageAll, .hasStagedChanges,
            .commit (lastDescription [⟨"A", "c0ffee", 2⟩] "Final changes"),
            .squashAndRebase "luna" "D"] }) :=
  (FinishWorkspace_writes_last (memoryRepositoryOnBase true) ⟨8, false, .written⟩
    ⟨[], ⟨.json (some [("feature", ⟨"feature", "D", 1, [⟨"A", "c0ffee", 2⟩]⟩)]) "feature", 2⟩,
      []⟩
    ⟨[("feature", ⟨"feature", "D", 1, [⟨"A", "c0ffee", 2⟩]⟩)], "feature"⟩
    ⟨"feature", "D", 1, [⟨"A", "c0ffee", 2⟩]⟩ rfl (by decide) (by decide)).2.2.2.2.1
    [] [] "c0ffee" ["A"] (.alreadyOnBase "luna") ["A"] rfl rfl rfl rfl

end Luna
